import Mathlib

/-!
# Word of Wisdom: proof-of-work service and connection handler

A shallow embedding of `internal/service/pow_hashcash.go`, `internal/entity/pow.go` and
`internal/adapter/transport/tcp/server.go`.

Conventions of the embedding:

* a Go `byte` is a `Fin 256`; `[]byte` and `string` are both lists of bytes;
* Go `int` and `int64` values are `Int`; where the source can overflow (the duration
  multiplication in `NewChallenge`) the wrap-around modulo `2^64` is written out;
* a Go `error` is `Option GoError`, `none` being `nil`;
* the clock is an explicit argument.
-/

namespace WordOfWisdom

/-! ## Bytes and strings -/

abbrev Byte := Fin 256

abbrev Bytes := List Byte

/-- A Go `string`: an immutable sequence of bytes (not necessarily valid UTF-8). -/
abbrev GoString := List Byte

/-- A string literal of the source, as the bytes of its UTF-8 encoding. -/
def lit (s : String) : GoString :=
  (s.data.flatMap String.utf8EncodeChar).map fun b => b.val

/-! ## Errors -/

/-- The Go `error` values the service can build. `errorsNew` is `errors.New`,
`CorruptInputError` is the error type of `encoding/base64`, and `wrapf pre e` is
`fmt.Errorf(pre + "%w", e)`. -/
inductive GoError where
  | errorsNew (msg : String)
  | CorruptInputError (offset : Int)
  | wrapf (pre : String) (err : GoError)
  deriving DecidableEq, Repr

/-- Go `error` interface value: `none` is `nil`. -/
abbrev error := Option GoError

/-! ## `strconv` -/

/-- The decimal digits of `n`, most significant first, prepended to `acc`. -/
def formatBits : Nat → Nat → Bytes → Bytes
  | 0, _, acc => acc
  | fuel + 1, n, acc =>
    if n < 10 then ⟨48 + n % 10, by omega⟩ :: acc
    else formatBits fuel (n / 10) (⟨48 + n % 10, by omega⟩ :: acc)

/-- Go `strconv.FormatInt(i, 10)`. -/
def FormatInt (i : Int) : GoString :=
  if i < 0 then (45 : Byte) :: formatBits (i.natAbs + 1) i.natAbs []
  else formatBits (i.natAbs + 1) i.natAbs []

/-- The method `Error()` of an error value. -/
def GoError.Error : GoError → GoString
  | .errorsNew msg => lit msg
  | .CorruptInputError offset => lit "illegal base64 data at input byte " ++ FormatInt offset
  | .wrapf pre err => lit pre ++ err.Error

/-! ## `encoding/base64`, `StdEncoding` -/

/-- The alphabet of `base64.StdEncoding`. -/
def encodeStd : Bytes :=
  lit "ABCDEFGHIJKLMNOPQRSTUVWXYZabcdefghijklmnopqrstuvwxyz0123456789+/"

/-- The padding character `=`. -/
def padChar : Byte := 61

/-- Go `enc.encode[i]`. -/
def encodeTab (i : Nat) : Byte := encodeStd.getD i 0

/-- Go `enc.decodeMap[c]`: the index of `c` in the alphabet, `0xff` for any other byte. -/
def decodeMap (c : Byte) : Nat :=
  if encodeStd.indexOf c < 64 then encodeStd.indexOf c else 0xff

/-- Go conversion `byte(n)` of an unsigned value. -/
def byteOf (n : Nat) : Byte := ⟨n % 256, Nat.mod_lt _ (by decide)⟩

/-- Go `(*Encoding).EncodeToString` for `StdEncoding` (padded). -/
def EncodeToString : Bytes → GoString
  | a :: b :: c :: rest =>
    let val := a.val <<< 16 ||| b.val <<< 8 ||| c.val
    encodeTab (val >>> 18 &&& 0x3F) :: encodeTab (val >>> 12 &&& 0x3F) ::
      encodeTab (val >>> 6 &&& 0x3F) :: encodeTab (val &&& 0x3F) :: EncodeToString rest
  | [a, b] =>
    let val := a.val <<< 16 ||| b.val <<< 8
    [encodeTab (val >>> 18 &&& 0x3F), encodeTab (val >>> 12 &&& 0x3F),
      encodeTab (val >>> 6 &&& 0x3F), padChar]
  | [a] =>
    let val := a.val <<< 16
    [encodeTab (val >>> 18 &&& 0x3F), encodeTab (val >>> 12 &&& 0x3F), padChar, padChar]
  | [] => []

/-- The test `in == '\n' || in == '\r'` of the decoder. -/
def isNewline (c : Byte) : Bool := c = 10 || c = 13

/-- The tail of `decodeQuantum`: the 6-bit values `d0 .. d3` are packed into `val` and the first
`dlen - 1` of its three bytes are the output of the quantum. -/
def quantumBytes (d0 d1 d2 d3 dlen : Nat) : Bytes :=
  let val := d0 <<< 18 ||| d1 <<< 12 ||| d2 <<< 6 ||| d3
  [byteOf (val >>> 16), byteOf (val >>> 8), byteOf val].take (dlen - 1)

/-- The part of `decodeQuantum` after the padding of a quantum has been consumed: newlines are
skipped, any further byte is trailing garbage (the bytes of the quantum are still delivered). -/
def decodePadTail (j d0 d1 d2 : Nat) (out : Bytes) (si : Nat) (rest : Bytes) : Bytes × error :=
  let r := rest.dropWhile isNewline
  let si1 := si + (rest.length - r.length)
  (out ++ quantumBytes d0 d1 d2 0 j,
    if r.length > 0 then some (.CorruptInputError si1) else none)

/-- Go `(*Encoding).Decode` for `StdEncoding` (padded, not strict): the loop over
`decodeQuantum`, as one pass over the input. `n` is `len(src)`, `j` the index in the current
quantum, `d0 d1 d2` its 6-bit values so far, `out` the bytes decoded so far, and `si` the
index of the next input byte. -/
def Decode (n : Nat) : Nat → Nat → Nat → Nat → Bytes → Nat → Bytes → Bytes × error
  | j, _, _, _, out, si, [] =>
    if j = 0 then (out, none) else (out, some (.CorruptInputError ((si : Int) - j)))
  | j, d0, d1, d2, out, si, c :: rest =>
    if decodeMap c ≠ 0xff then
      match j with
      | 0 => Decode n 1 (decodeMap c) 0 0 out (si + 1) rest
      | 1 => Decode n 2 d0 (decodeMap c) 0 out (si + 1) rest
      | 2 => Decode n 3 d0 d1 (decodeMap c) out (si + 1) rest
      | _ => Decode n 0 0 0 0 (out ++ quantumBytes d0 d1 d2 (decodeMap c) 4) (si + 1) rest
    else if isNewline c then Decode n j d0 d1 d2 out (si + 1) rest
    else if c ≠ padChar then (out, some (.CorruptInputError si))
    else
      match j with
      | 0 => (out, some (.CorruptInputError si))
      | 1 => (out, some (.CorruptInputError si))
      | 2 =>
        let r := rest.dropWhile isNewline
        let si1 := si + 1 + (rest.length - r.length)
        match r with
        | [] => (out, some (.CorruptInputError n))
        | c2 :: r2 =>
          if c2 ≠ padChar then (out, some (.CorruptInputError ((si1 : Int) - 1)))
          else decodePadTail 2 d0 d1 d2 out (si1 + 1) r2
      | _ => decodePadTail 3 d0 d1 d2 out (si + 1) rest

/-- Go `(*Encoding).DecodeString` for `StdEncoding`: the decoded bytes and the error. -/
def DecodeString (s : GoString) : Bytes × error := Decode s.length 0 0 0 0 [] 0 s

/-! ## `math/bits` -/

/-- The table `len8tab` of `math/bits`: the minimum number of bits needed to represent `x`. -/
def Len8 (x : Byte) : Int :=
  if x.val = 0 then 0
  else if x.val < 2 then 1
  else if x.val < 4 then 2
  else if x.val < 8 then 3
  else if x.val < 16 then 4
  else if x.val < 32 then 5
  else if x.val < 64 then 6
  else if x.val < 128 then 7
  else 8

/-- Go `bits.LeadingZeros8`: `8 - Len8(x)`. -/
def LeadingZeros8 (x : Byte) : Int := 8 - Len8 x

/-! ## `time` -/

/-- Go `int64(x)` for an out-of-range integer result: two's-complement wrap-around. -/
def wrap64 (x : Int) : Int := (x + 2 ^ 63) % 2 ^ 64 - 2 ^ 63

/-- Go `time.Second`, a `time.Duration` (an `int64` count of nanoseconds). -/
def Second : Int := 1000000000

/-- A wall-clock reading: whole seconds since the Unix epoch and the nanoseconds within that
second. The seconds of a reading of `time.Now()` are far from the `int64` limits, so the
saturation of `Time.addSec` is not part of the model. -/
structure Time where
  sec : Int
  nsec : Fin 1000000000

/-- Go `Time.Add(d)` on the wall clock: `dsec := d / 1e9`, `nsec := t.nsec() + d % 1e9`
(truncated division), then one carry or borrow. -/
def Time.Add (t : Time) (d : Int) : Int × Int :=
  let dsec := d.tdiv 1000000000
  let nsec := (t.nsec.val : Int) + d.tmod 1000000000
  if nsec ≥ 1000000000 then (t.sec + (dsec + 1), nsec - 1000000000)
  else if nsec < 0 then (t.sec + (dsec - 1), nsec + 1000000000)
  else (t.sec + dsec, nsec)

/-! ## `internal/entity/pow.go` -/

structure Challenge where
  Version : Int
  Algo : GoString
  Difficulty : Int
  SaltB64 : GoString
  Expires : Int
  deriving DecidableEq, Repr

structure Solution where
  Nonce : GoString
  deriving DecidableEq, Repr

/-! ## Library functions taken as given -/

/-- The two standard-library functions of the service whose bodies are outside the
repository and are not modelled: `sha256.Sum256`, which returns a `[32]byte`, and
`strings.ToLower`. -/
structure Lib where
  Sum256 : Bytes → Bytes
  Sum256_length : ∀ m, (Sum256 m).length = 32
  ToLower : GoString → GoString

/-! ## `internal/service/pow_hashcash.go` -/

/-- The salt buffer after `salt := make([]byte, 16)` and a `crand.Read(salt)` that returned,
`rnd` being the bytes read. A read that returns has filled the buffer (see `RandomRead`), so
`rnd` has sixteen bytes in every run and the buffer is `rnd`; for a shorter `rnd`, which no run
reaches, the definition keeps the zero bytes of the fresh buffer behind it. -/
def saltBuffer (rnd : Bytes) : Bytes :=
  rnd.take 16 ++ List.replicate (16 - rnd.length) 0

/-- Go `(*Hashcash).NewChallenge` on a run in which `crand.Read` returns, at clock reading `now`
and with `rnd` the bytes read (the two results of `crand.Read` are discarded by the source). -/
def NewChallenge (now : Time) (rnd : Bytes) (difficulty : Int) (ttlSeconds : Int) :
    Challenge × error :=
  ({ Version := 1
     Algo := lit "sha256-leading-zero-bits"
     Difficulty := difficulty
     SaltB64 := EncodeToString (saltBuffer rnd)
     Expires := (now.Add (wrap64 (ttlSeconds * Second))).1 }, none)

/-- The loop of `leadingZeroBits` over the bytes, with the running `total`. -/
def leadingZeroBitsLoop (total : Int) : Bytes → Int
  | [] => total
  | x :: rest =>
    if x = 0 then leadingZeroBitsLoop (total + 8) rest
    else total + LeadingZeros8 x

/-- Go `leadingZeroBits`. -/
def leadingZeroBits (b : Bytes) : Int := leadingZeroBitsLoop 0 b

/-- Go `powMessage`. -/
def powMessage (salt : Bytes) (expires : Int) (nonceHex : GoString) : Bytes :=
  let payload : Bytes := []
  let payload := payload ++ salt
  let payload := payload ++ [58]
  let payload := payload ++ FormatInt expires
  let payload := payload ++ [58]
  let payload := payload ++ nonceHex
  payload

/-- Go `(*Hashcash).Verify`, with `now` the value of `time.Now().Unix()`. -/
def Verify (L : Lib) (now : Int) (ch : Challenge) (sol : Solution) : error :=
  if ch.Algo ≠ lit "sha256-leading-zero-bits" ∨ ch.Version ≠ 1 then
    some (.errorsNew "unsupported challenge")
  else if now > ch.Expires then
    some (.errorsNew "challenge expired")
  else
    match DecodeString ch.SaltB64 with
    | (_, some err) => some (.wrapf "bad salt: " err)
    | (salt, none) =>
      let sum := L.Sum256 (powMessage salt ch.Expires (L.ToLower sol.Nonce))
      if leadingZeroBits sum < ch.Difficulty then some (.errorsNew "pow invalid")
      else none

/-! ## `internal/adapter/transport/tcp/server.go`: the connection handler -/

/-- Go interface `tcp.PoW`. Each method is called at most once per connection, so an engine is
described by what each call returns. -/
structure PoW where
  NewChallenge : Int → Int → Challenge × error
  Verify : Challenge → Solution → error

/-- Go interface `tcp.Quote`. -/
structure Quote where
  Random : Unit → GoString

/-- The `encoding/json` and `strings` functions called by `handle`, taken as given:
`json.Marshal(ch)`, `json.Unmarshal(data, &sol)` on a zero `Solution` (the value left in `sol`
and the error), and `strings.TrimSpace`. -/
structure Codec where
  Marshal : Challenge → Bytes × error
  Unmarshal : Bytes → Solution × error
  TrimSpace : GoString → GoString

/-- The fields of `Server` that `handle` uses. `ttlSeconds` is the value of
`int64(s.ttl.Seconds())`, a floating-point computation that is not modelled. -/
structure Server where
  pow : PoW
  quotes : Quote
  codec : Codec
  ttlSeconds : Int

/-- What the peer and the network do on one connection: `accepts = some k` when the
connection takes `k` bytes and its `Write` fails from then on (`none`: no write fails), and
`line` is what `br.ReadString('\n')` returns. -/
structure Conn where
  accepts : Option Nat
  line : GoString × error

inductive Level where
  | Debug
  | Info
  | Warn
  | Error
  deriving DecidableEq, Repr

/-- The observable steps of `handle`, in program order. `Write p` is a `bw.Write` or
`bw.WriteString` of `p` followed by `bw.Flush()`; `Log` carries the level, the message and the
error attribute of the record, if any. -/
inductive Event where
  | SetDeadline
  | NewChallenge (difficulty ttlSeconds : Int)
  | Write (p : Bytes)
  | ReadString
  | Verify (ch : Challenge) (sol : Solution)
  | Random
  | Log (level : Level) (msg : String) (err : error)
  | Close
  deriving DecidableEq, Repr

/-- The state of one run of `handle`: the steps so far, the bytes the connection has taken, and
whether the `bufio.Writer` holds its sticky write error. -/
structure Session where
  trace : List Event
  wire : Bytes
  werr : Bool
  deriving DecidableEq, Repr

/-- Append one step to the trace. -/
def Session.emit (s : Session) (e : Event) : Session :=
  { s with trace := s.trace ++ [e] }

/-- A buffered write of `p` followed by `Flush`, results discarded as in the source. Once a
write to the connection has failed the writer keeps the error and passes nothing on. -/
def Session.writeFlush (s : Session) (c : Conn) (p : Bytes) : Session :=
  let s := s.emit (.Write p)
  if s.werr then s
  else
    match c.accepts with
    | none => { s with wire := s.wire ++ p }
    | some k =>
      if s.wire.length + p.length ≤ k then { s with wire := s.wire ++ p }
      else { s with wire := s.wire ++ p.take (k - s.wire.length), werr := true }

/-- Go `(*Server).handle`. The deferred `conn.Close()` is the last step of every path. -/
def handle (srv : Server) (c : Conn) (difficulty : Int) : Session :=
  let s : Session := ⟨[], [], false⟩
  let s := s.emit .SetDeadline
  let s := s.emit (.NewChallenge difficulty srv.ttlSeconds)
  match srv.pow.NewChallenge difficulty srv.ttlSeconds with
  | (_, some err) =>
    ((s.emit (.Log .Error "challenge create failed" (some err))).emit .Close)
  | (ch, none) =>
    match srv.codec.Marshal ch with
    | (_, some err) =>
      ((s.emit (.Log .Error "challenge marshal failed" (some err))).emit .Close)
    | (payload, none) =>
      let s := s.writeFlush c (payload ++ [10])
      let s := s.emit (.Log .Debug "challenge issued" none)
      let s := s.emit .ReadString
      match c.line with
      | (_, some err) =>
        ((s.emit (.Log .Debug "read solution failed" (some err))).emit .Close)
      | (line, none) =>
        let line := srv.codec.TrimSpace line
        match srv.codec.Unmarshal line with
        | (sol, err) =>
          if err ≠ none ∨ sol.Nonce = [] then
            let s := s.writeFlush c (lit "invalid solution json\n")
            ((s.emit (.Log .Debug "bad solution" err)).emit .Close)
          else
            let s := s.emit (.Verify ch sol)
            match srv.pow.Verify ch sol with
            | some err =>
              let s := s.writeFlush c (lit "pow verification failed\n")
              ((s.emit (.Log .Debug "pow failed" (some err))).emit .Close)
            | none =>
              let s := s.emit .Random
              let s := s.writeFlush c (srv.quotes.Random () ++ lit "\n")
              ((s.emit (.Log .Info "success" none)).emit .Close)

/-! ## Specification-side notions for `handle` -/

/-- The writes of a trace, in order. -/
def writes (t : List Event) : List Bytes :=
  t.filterMap fun e => match e with
    | .Write p => some p
    | _ => none

/-- The calls of `Verify` in a trace, with their arguments. -/
def verifyCalls (t : List Event) : List (Challenge × Solution) :=
  t.filterMap fun e => match e with
    | .Verify ch sol => some (ch, sol)
    | _ => none

/-- The calls of `NewChallenge` in a trace, with their arguments. -/
def newChallengeCalls (t : List Event) : List (Int × Int) :=
  t.filterMap fun e => match e with
    | .NewChallenge d ttl => some (d, ttl)
    | _ => none

/-- The byte stream of a trace: its writes, one after the other. -/
def streamOf (t : List Event) : Bytes := (writes t).flatten

/-- The writer is consistent with the connection: the bytes taken by the connection are the
part of the written stream that it accepts, and the writer holds an error exactly when the
stream is longer than that. -/
def Session.consistent (c : Conn) (s : Session) : Prop :=
  s.wire = (match c.accepts with
    | none => streamOf s.trace
    | some k => (streamOf s.trace).take k) ∧
  (s.werr = true ↔ ∃ k, c.accepts = some k ∧ k < (streamOf s.trace).length)

/-- What reaches the peer of a byte stream written to a connection. -/
def delivered (accepts : Option Nat) (stream : Bytes) : Bytes :=
  match accepts with
  | none => stream
  | some k => stream.take k

/-! ## An executable instance of the library functions

SHA-256 as specified in FIPS 180-4, which `crypto/sha256` implements, on 32-bit words held in
`Nat` and reduced modulo `2^32`. -/

namespace SHA256

def mask32 (x : Nat) : Nat := x % 4294967296

def rotr (x n : Nat) : Nat := mask32 (x >>> n ||| x <<< (32 - n))

def K : List Nat := [
  0x428a2f98, 0x71374491, 0xb5c0fbcf, 0xe9b5dba5, 0x3956c25b, 0x59f111f1, 0x923f82a4, 0xab1c5ed5,
  0xd807aa98, 0x12835b01, 0x243185be, 0x550c7dc3, 0x72be5d74, 0x80deb1fe, 0x9bdc06a7, 0xc19bf174,
  0xe49b69c1, 0xefbe4786, 0x0fc19dc6, 0x240ca1cc, 0x2de92c6f, 0x4a7484aa, 0x5cb0a9dc, 0x76f988da,
  0x983e5152, 0xa831c66d, 0xb00327c8, 0xbf597fc7, 0xc6e00bf3, 0xd5a79147, 0x06ca6351, 0x14292967,
  0x27b70a85, 0x2e1b2138, 0x4d2c6dfc, 0x53380d13, 0x650a7354, 0x766a0abb, 0x81c2c92e, 0x92722c85,
  0xa2bfe8a1, 0xa81a664b, 0xc24b8b70, 0xc76c51a3, 0xd192e819, 0xd6990624, 0xf40e3585, 0x106aa070,
  0x19a4c116, 0x1e376c08, 0x2748774c, 0x34b0bcb5, 0x391c0cb3, 0x4ed8aa4a, 0x5b9cca4f, 0x682e6ff3,
  0x748f82ee, 0x78a5636f, 0x84c87814, 0x8cc70208, 0x90befffa, 0xa4506ceb, 0xbef9a3f7, 0xc67178f2]

structure State where
  a : Nat
  b : Nat
  c : Nat
  d : Nat
  e : Nat
  f : Nat
  g : Nat
  h : Nat

def init : State :=
  ⟨0x6a09e667, 0xbb67ae85, 0x3c6ef372, 0xa54ff53a, 0x510e527f, 0x9b05688c, 0x1f83d9ab, 0x5be0cd19⟩

/-- The message with the padding of FIPS 180-4: a `0x80` byte, zero bytes up to 56 modulo 64,
and the bit length as 8 big-endian bytes. -/
def pad (m : Bytes) : Bytes :=
  let l := m.length
  m ++ [(0x80 : Byte)] ++ List.replicate ((119 - l % 64) % 64) (0 : Byte) ++
    (List.range 8).map fun i => byteOf ((8 * l) >>> (8 * (7 - i)))

/-- Big-endian 32-bit words of a byte list. -/
def words : Bytes → List Nat
  | a :: b :: c :: d :: rest =>
    (a.val <<< 24 ||| b.val <<< 16 ||| c.val <<< 8 ||| d.val) :: words rest
  | _ => []

def ssig0 (x : Nat) : Nat := rotr x 7 ^^^ rotr x 18 ^^^ x >>> 3
def ssig1 (x : Nat) : Nat := rotr x 17 ^^^ rotr x 19 ^^^ x >>> 10
def bsig0 (x : Nat) : Nat := rotr x 2 ^^^ rotr x 13 ^^^ rotr x 22
def bsig1 (x : Nat) : Nat := rotr x 6 ^^^ rotr x 11 ^^^ rotr x 25
def ch (x y z : Nat) : Nat := (x &&& y) ^^^ ((x ^^^ 0xffffffff) &&& z)
def maj (x y z : Nat) : Nat := (x &&& y) ^^^ (x &&& z) ^^^ (y &&& z)

/-- The message schedule, most recent word first: `w` holds `W[t-1], W[t-2], ...`. -/
def schedule : Nat → List Nat → List Nat
  | 0, w => w
  | k + 1, w =>
    schedule k (mask32 (ssig1 (w.getD 1 0) + w.getD 6 0 + ssig0 (w.getD 14 0) + w.getD 15 0) :: w)

def round (s : State) (kw : Nat × Nat) : State :=
  let t1 := s.h + bsig1 s.e + ch s.e s.f s.g + kw.1 + kw.2
  let t2 := bsig0 s.a + maj s.a s.b s.c
  ⟨mask32 (t1 + t2), s.a, s.b, s.c, mask32 (s.d + t1), s.e, s.f, s.g⟩

def compress (s : State) (block : List Nat) : State :=
  let w := (schedule 48 block.reverse).reverse
  let t := (K.zip w).foldl round s
  ⟨mask32 (s.a + t.a), mask32 (s.b + t.b), mask32 (s.c + t.c), mask32 (s.d + t.d),
    mask32 (s.e + t.e), mask32 (s.f + t.f), mask32 (s.g + t.g), mask32 (s.h + t.h)⟩

def blocks : Nat → State → List Nat → State
  | 0, s, _ => s
  | k + 1, s, ws => if ws.length < 16 then s else blocks k (compress s (ws.take 16)) (ws.drop 16)

def be32 (x : Nat) : Bytes := [byteOf (x >>> 24), byteOf (x >>> 16), byteOf (x >>> 8), byteOf x]

def Sum256 (m : Bytes) : Bytes :=
  let ws := words (pad m)
  let s := blocks ws.length init ws
  be32 s.a ++ be32 s.b ++ be32 s.c ++ be32 s.d ++ be32 s.e ++ be32 s.f ++ be32 s.g ++ be32 s.h

end SHA256

/-- Lower-casing of the ASCII letters, which is what `strings.ToLower` does on a string of ASCII
bytes; other bytes are left unchanged. -/
def asciiToLower (s : GoString) : GoString :=
  s.map fun c => if 65 ≤ c.val ∧ c.val ≤ 90 then c + 32 else c

/-- The library functions instantiated: SHA-256 and ASCII lower-casing. -/
def goLib : Lib :=
  ⟨SHA256.Sum256, fun m => by simp [SHA256.Sum256, SHA256.be32], asciiToLower⟩

/-- A challenge with salt bytes `salt` for the examples. -/
def sampleChallenge : Challenge :=
  { Version := 1
    Algo := lit "sha256-leading-zero-bits"
    Difficulty := 12
    SaltB64 := lit "c2FsdA=="
    Expires := 1700000000 }

/-- The engine `*service.Hashcash` behind the interface `tcp.PoW` on one connection: the
challenge is issued at clock reading `issuedAt` with random bytes `rnd`, and the solution is
verified when `time.Now().Unix()` is `verifiedAt`. -/
def hashcashEngine (L : Lib) (issuedAt : Time) (rnd : Bytes) (verifiedAt : Int) : PoW :=
  ⟨NewChallenge issuedAt rnd, Verify L verifiedAt⟩

/-- The outcome of `crand.Read(salt)` on the sixteen-byte buffer. By the contract of
`crypto/rand` (since Go 1.24) `Read` "never returns an error, and always fills b entirely": it
fills the buffer, or, when the random source fails, it "crashes the program irrecoverably". -/
inductive RandomRead where
  | filled (r : Bytes) (full : r.length = 16)
  | aborted

/-- Go `(*Hashcash).NewChallenge` as a call that may not return: `none` when the read of the
random source aborts the process, otherwise what `NewChallenge` returns on the bytes read. -/
def NewChallengeCall (now : Time) (rd : RandomRead) (difficulty ttlSeconds : Int) :
    Option (Challenge × error) :=
  match rd with
  | .aborted => none
  | .filled r _ => some (NewChallenge now r difficulty ttlSeconds)

/-- Go `(*Server).handle` on a server whose engine is `*service.Hashcash`, given the outcome of
the read of the random source. When the read aborts the process the run ends inside the call of
`NewChallenge`, with the steps `handle` has made up to and including that call; otherwise it is
`handle` with the engine's results. -/
def handleHashcash (L : Lib) (now : Time) (rd : RandomRead) (verifiedAt : Int) (quotes : Quote)
    (codec : Codec) (ttlSeconds : Int) (c : Conn) (difficulty : Int) : Session :=
  match rd with
  | .aborted => ⟨[.SetDeadline, .NewChallenge difficulty ttlSeconds], [], false⟩
  | .filled r _ =>
    handle ⟨hashcashEngine L now r verifiedAt, quotes, codec, ttlSeconds⟩ c difficulty

/-- Removal of leading and trailing ASCII white space, which is what `strings.TrimSpace` does on
a string of ASCII bytes. -/
def asciiTrimSpace (s : GoString) : GoString :=
  let isSpace := fun (c : Byte) => c = 32 || (9 ≤ c.val && c.val ≤ 13)
  ((s.dropWhile isSpace).reverse.dropWhile isSpace).reverse

/-- The JSON text of a challenge whose strings need no escaping. -/
def sampleMarshal (ch : Challenge) : Bytes × error :=
  (lit "\x7b\"version\":" ++ FormatInt ch.Version ++ lit ",\"algo\":\"" ++ ch.Algo ++
    lit "\",\"difficulty\":" ++ FormatInt ch.Difficulty ++ lit ",\"salt_b64\":\"" ++ ch.SaltB64 ++
    lit "\",\"expires\":" ++ FormatInt ch.Expires ++ lit "\x7d", none)

/-- A reader of solution records for the examples: it understands the form that the client
sends, an object with the single key `nonce` and a string without escapes, and reports an error
for any other input. -/
def sampleUnmarshal (data : Bytes) : Solution × error :=
  let opening := lit "\x7b\"nonce\":\""
  let closing := lit "\"\x7d"
  if opening.isPrefixOf data && closing.isSuffixOf data
      && decide (opening.length + closing.length ≤ data.length) then
    (⟨(data.drop opening.length).take (data.length - opening.length - closing.length)⟩, none)
  else (⟨[]⟩, some (.errorsNew "invalid character"))

def sampleCodec : Codec := ⟨sampleMarshal, sampleUnmarshal, asciiTrimSpace⟩

/-- A server for the examples: the Hashcash engine over SHA-256, a challenge lifetime of 90
seconds, and a provider of one quote. -/
def sampleServer : Server :=
  ⟨hashcashEngine goLib ⟨1700000000, 5⟩ (lit "0123456789abcdef") 1700000010,
    ⟨fun _ => lit "hello, world"⟩, sampleCodec, 90⟩

/-- The challenge that `sampleServer` issues at difficulty 4. -/
def issuedChallenge : Challenge :=
  { Version := 1
    Algo := lit "sha256-leading-zero-bits"
    Difficulty := 4
    SaltB64 := lit "MDEyMzQ1Njc4OWFiY2RlZg=="
    Expires := 1700000090 }

/-- Its JSON line without the final newline. -/
def issuedPayload : Bytes :=
  lit ("\x7b\"version\":1,\"algo\":\"sha256-leading-zero-bits\",\"difficulty\":4," ++
    "\"salt_b64\":\"MDEyMzQ1Njc4OWFiY2RlZg==\",\"expires\":1700000090\x7d")

/-- A peer that takes every write and sends the given line. -/
def peerSending (line : String) : Conn := ⟨none, (lit line, none)⟩

/-! ## Specification-side notions for `NewChallenge` -/

/-- A clock reading as nanoseconds since the Unix epoch. -/
def Time.nanos (t : Time) : Int := t.sec * 1000000000 + (t.nsec.val : Int)

/-- The Unix seconds of an instant given in nanoseconds since the epoch (rounded down). -/
def unixSeconds (nanos : Int) : Int := nanos / 1000000000

/-- A clock reading and sixteen random bytes for the examples. -/
def sampleNow : Time := ⟨1700000000, 5⟩

def sampleRandom : Bytes := lit "0123456789abcdef"

/-! ## Specification-side notions for `leadingZeroBits` -/

/-- The eight bits of a byte, most significant first. -/
def bitsMSB (x : Byte) : List Bool :=
  (List.range 8).map fun i => x.val.testBit (7 - i)

/-- The number of leading zero bits of a byte in its 8-bit representation. -/
def leadingZerosOfByte (x : Byte) : Nat := ((bitsMSB x).takeWhile (· = false)).length

/-- The number of leading bytes equal to zero. -/
def leadingZeroBytes (b : Bytes) : Nat := (b.takeWhile (· = 0)).length

/-- The leading zero bits of the first non-zero byte, `0` when there is none. -/
def firstNonZeroBits (b : Bytes) : Nat :=
  match b.find? (· ≠ 0) with
  | none => 0
  | some x => leadingZerosOfByte x

/-! ## `fmt` and `strconv`, further functions -/

/-- The hexadecimal digits of `n` in lower case, most significant first, prepended to `acc`. -/
def formatHexBits : Nat → Nat → Bytes → Bytes
  | 0, _, acc => acc
  | fuel + 1, n, acc =>
    if n < 16 then (lit "0123456789abcdef").getD (n % 16) 0 :: acc
    else formatHexBits fuel (n / 16) ((lit "0123456789abcdef").getD (n % 16) 0 :: acc)

/-- Go `fmt.Sprintf("%x", i)` for an `int`. -/
def Sprintf_x (i : Int) : GoString :=
  if i < 0 then (45 : Byte) :: formatHexBits (i.natAbs + 1) i.natAbs []
  else formatHexBits (i.natAbs + 1) i.natAbs []

/-- The value of a string of decimal digits, `none` when a byte is not a digit. -/
def digitsValue : Nat → Bytes → Option Nat
  | acc, [] => some acc
  | acc, c :: rest =>
    if 48 ≤ c.val ∧ c.val ≤ 57 then digitsValue (acc * 10 + (c.val - 48)) rest else none

/-- Go `strconv.Atoi` on a 64-bit platform: an optional sign and decimal digits; the error is
`ErrSyntax` for anything else and `ErrRange`, with the nearest `int`, for a value outside the
`int` range. The error text leaves out the quoted input. -/
def Atoi (s : GoString) : Int × error :=
  let neg := s.head? = some (45 : Byte)
  let digits := if s.head? = some (45 : Byte) ∨ s.head? = some (43 : Byte) then s.drop 1 else s
  if digits = [] then (0, some (.wrapf "strconv.Atoi: parsing: " (.errorsNew "invalid syntax")))
  else
    match digitsValue 0 digits with
    | none => (0, some (.wrapf "strconv.Atoi: parsing: " (.errorsNew "invalid syntax")))
    | some un =>
      if ¬ neg ∧ un ≥ 9223372036854775808 then
        (9223372036854775807,
          some (.wrapf "strconv.Atoi: parsing: " (.errorsNew "value out of range")))
      else if neg ∧ un > 9223372036854775808 then
        (-9223372036854775808,
          some (.wrapf "strconv.Atoi: parsing: " (.errorsNew "value out of range")))
      else (if neg then -(un : Int) else (un : Int), none)

/-! ## `pkg/config/config.go` -/

namespace Config

/-- Go `getenv`, with `env` the value of `os.Getenv(key)`. -/
def getenv (env : GoString → GoString) (key def_ : GoString) : GoString :=
  if env key ≠ [] then env key else def_

/-- Go `atoi`. -/
def atoi (s : GoString) (def_ : Int) : Int :=
  match Atoi s with
  | (n, none) => n
  | (_, some _) => def_

/-- The field `PoWDifficulty` of the result of `Parse`. -/
def parsePoWDifficulty (env : GoString → GoString) : Int :=
  atoi (getenv env (lit "POW_DIFFICULTY") (lit "22")) 22

end Config

/-! ## `cmd/client/main.go` -/

namespace Client

/-- The loop of the client's `leadingZeroBits`, with the named result `n`. -/
def leadingZeroBitsLoop (n : Int) : Bytes → Int
  | [] => n
  | x :: rest =>
    if x = 0 then leadingZeroBitsLoop (n + 8) rest
    else n + LeadingZeros8 x

/-- Go `leadingZeroBits` of package `main` of the client. -/
def leadingZeroBits (b : Bytes) : Int := leadingZeroBitsLoop 0 b

/-- The payload that the search loop builds for a nonce. -/
def payload (salt : Bytes) (expStr : GoString) (nonceLower : GoString) : Bytes :=
  let payload : Bytes := []
  let payload := payload ++ salt
  let payload := payload ++ [58]
  let payload := payload ++ expStr
  let payload := payload ++ [58]
  let payload := payload ++ nonceLower
  payload

/-- How the client's run ends: the nonce found by the search, `os.Exit(1)` for a salt that does
not decode, `os.Exit(2)` for a challenge that expired during the search, or still searching
after the given number of iterations. -/
inductive Outcome where
  | found (nonce : GoString)
  | badSalt
  | expired
  | searching
  deriving DecidableEq, Repr

/-- The search loop `for i := 0; ; i++` of `main`, from candidate `i`, for at most `fuel`
iterations; `clock k` is the value of `time.Now().Unix()` read in the iteration of candidate
`k`. The counter is an `int`, whose increment wraps around. -/
def search (L : Lib) (clock : Int → Int) (ch : Challenge) (salt : Bytes) (expStr : GoString) :
    Nat → Int → Outcome
  | 0, _ => .searching
  | fuel + 1, i =>
    let nonce := Sprintf_x i
    let nonceLower := L.ToLower nonce
    let sum := L.Sum256 (payload salt expStr nonceLower)
    if leadingZeroBits sum ≥ ch.Difficulty then .found nonce
    else if clock i > ch.Expires then .expired
    else search L clock ch salt expStr fuel (wrap64 (i + 1))

/-- The part of the client's `main` between receiving the challenge and sending the solution:
the salt is decoded, the expiry is rendered, and the search runs. -/
def solve (L : Lib) (clock : Int → Int) (ch : Challenge) (fuel : Nat) : Outcome :=
  match DecodeString ch.SaltB64 with
  | (_, some _) => .badSalt
  | (salt, none) => search L clock ch salt (FormatInt ch.Expires) fuel 0

end Client

/-! ## `internal/adapter/transport/tcp/server.go`: the accept loop and `Run` -/

/-- An error returned by `Accept`, with the two tests that `acceptLoop` makes on it:
`errors.Is(err, net.ErrClosed)`, and `errors.As(err, &ne) && ne.Temporary()`. -/
structure AcceptError where
  isClosed : Bool
  isTemporary : Bool
  err : GoError
  deriving DecidableEq, Repr

/-- A connection of the registry `s.active`; `tcp` tells whether its dynamic type is
`*net.TCPConn`, as it is for a connection accepted from the listener of `Run`. -/
structure ConnRef where
  id : Nat
  tcp : Bool
  deriving DecidableEq, Repr

/-- What one call of `s.ln.Accept()` returns. -/
inductive Accepted where
  | conn (c : ConnRef)
  | fail (e : AcceptError)
  deriving DecidableEq, Repr

/-- The steps of `Run` and of `acceptLoop`, each in the program order of its goroutine.
`AwaitDrain` is the `select` on `done` and `time.After(s.shutdownT)`. -/
inductive RunEvent where
  | Listen
  | Log (level : Level) (msg : String) (err : error)
  | GoAcceptLoop
  | Accept
  | Track (c : ConnRef)
  | WgAdd
  | GoHandle (c : ConnRef)
  | Sleep (milliseconds : Nat)
  | ListenerClose
  | SetDeadline (c : ConnRef) (milliseconds : Nat)
  | CloseWrite (c : ConnRef)
  | AwaitDrain
  | Close (c : ConnRef)
  deriving DecidableEq, Repr

/-- Go `(*Server).acceptLoop` on the given results of the successive calls of `Accept`, with
the steps so far. The result is `some err` when the loop has returned `err`, and `none` when
it is blocked in a further `Accept`. -/
def acceptLoop : List Accepted → List RunEvent → List RunEvent × Option error
  | [], t => (t ++ [.Accept], none)
  | .conn c :: rest, t => acceptLoop rest (t ++ [.Accept, .Track c, .WgAdd, .GoHandle c])
  | .fail e :: rest, t =>
    if e.isClosed then (t ++ [.Accept], some none)
    else if e.isTemporary then
      acceptLoop rest
        (t ++ [.Accept, .Log .Warn "temporary accept error" (some e.err), .Sleep 50])
    else (t ++ [.Accept], some (some (.wrapf "accept: " e.err)))

/-- The case of the `select` in `Run` that is taken. -/
inductive Selected where
  | ctxDone
  | errCh
  deriving DecidableEq, Repr

/-- What happens around one call of `Run`: the error of `net.Listen`, the results of the calls
of `Accept`, the case taken by the `select`, the registry when the shutdown branch takes the
lock, whether `done` is closed before the grace period ends, and the registry when the
force-close loop takes the lock. -/
structure RunEnv where
  listen : error
  accepted : List Accepted
  selected : Selected
  active : List ConnRef
  drained : Bool
  remaining : List ConnRef

/-- The branch `case <-ctx.Done()` of `Run` up to its `return nil`. -/
def shutdown (env : RunEnv) : List RunEvent :=
  [.Log .Info "shutdown: closing listener" none, .ListenerClose] ++
  env.active.flatMap (fun c =>
    if c.tcp then [.SetDeadline c 200, .CloseWrite c] else [.SetDeadline c 200]) ++
  [.AwaitDrain] ++
  (if env.drained then [.Log .Info "shutdown: all connections drained" none]
   else .Log .Warn "shutdown: force-close remaining connections" none ::
     env.remaining.map .Close)

/-- Go `(*Server).Run`: its steps and its result, `none` when it is still blocked in the
`select`. -/
def Run (env : RunEnv) : List RunEvent × Option error :=
  match env.listen with
  | some err => ([.Listen], some (some (.wrapf "listen: " err)))
  | none =>
    match env.selected with
    | .ctxDone =>
      ([.Listen, .Log .Info "server started" none, .GoAcceptLoop] ++ shutdown env, some none)
    | .errCh =>
      ([.Listen, .Log .Info "server started" none, .GoAcceptLoop],
        (acceptLoop env.accepted []).2)

/-! ## Specification-side notions for the accept loop -/

/-- The steps of `acceptLoop` for results of `Accept` that keep the loop running. -/
def loopSteps : List Accepted → List RunEvent
  | [] => []
  | .conn c :: rest => [.Accept, .Track c, .WgAdd, .GoHandle c] ++ loopSteps rest
  | .fail e :: rest =>
    [.Accept, .Log .Warn "temporary accept error" (some e.err), .Sleep 50] ++ loopSteps rest

/-- A result of `Accept` after which the loop goes round again: a connection, or an error that
is temporary and not the "listener closed" error. -/
def keepsRunning : Accepted → Bool
  | .conn _ => true
  | .fail e => !e.isClosed && e.isTemporary

/-- Errors of `Accept` for the examples: a temporary one, the "listener closed" error, and one
that is neither. -/
def temporaryError : AcceptError :=
  ⟨false, true, .errorsNew "accept tcp: too many open files"⟩

def closedError : AcceptError :=
  ⟨true, false, .errorsNew "use of closed network connection"⟩

def otherError : AcceptError :=
  ⟨false, false, .errorsNew "accept tcp: invalid argument"⟩

/-- A run for the examples in which `Accept` fails with `otherError` and the context is not
cancelled. -/
def failingAcceptRun : RunEnv :=
  ⟨none, [.conn ⟨1, true⟩, .fail temporaryError, .fail otherError], .errCh, [], true, []⟩

/-- A run for the examples that is cancelled with two connections registered, one of which is
still registered when the grace period ends. -/
def cancelledRun : RunEnv :=
  ⟨none, [.conn ⟨1, true⟩, .conn ⟨2, true⟩], .ctxDone, [⟨1, true⟩, ⟨2, true⟩], false,
    [⟨2, true⟩]⟩

/-- A peer for the examples whose connection takes no byte, every write failing, and from which
the given line is read. -/
def deafPeer (line : String) : Conn := ⟨some 0, (lit line, none)⟩

/-- The example server with an encoder that fails. -/
def serverWithFailingMarshal : Server :=
  { sampleServer with
    codec := ⟨fun _ => ([], some (.errorsNew "json: unsupported value")), sampleUnmarshal,
      asciiTrimSpace⟩ }

/-- An environment for the examples in which only `POW_DIFFICULTY` is set. -/
def envWithDifficulty (value : String) : GoString → GoString :=
  fun key => if key = lit "POW_DIFFICULTY" then lit value else []

/-! ## Specification-side notions for `powMessage` -/

/-- The base-10 decimal string of an integer, as bytes: the characters of `Int.repr`. -/
def decimalString (i : Int) : Bytes :=
  (Int.repr i).data.map fun c => Fin.ofNat c.toNat

/-! ## Known answers

The tables of the repository's unit tests and some standard test vectors, evaluated on the
definitions above. -/

/-- The cases of `TestLeadingZeroBits_Table`. -/
theorem known_leadingZeroBits :
    leadingZeroBits [0x00] = 8 ∧ leadingZeroBits [0x00, 0x00] = 16 ∧
    leadingZeroBits [0x0f] = 4 ∧ leadingZeroBits [0xf0] = 0 ∧
    leadingZeroBits [0x00, 0x1f] = 8 + 3 ∧ leadingZeroBits [0x7f] = 1 ∧
    leadingZeroBits [0x01] = 7 := by
  decide

/-- The case of `TestPowMessage_Format`, and decimal rendering of some integers. -/
theorem known_powMessage :
    powMessage (lit "salt") 123 (lit "0abc") = lit "salt:123:0abc" ∧
    FormatInt 0 = lit "0" ∧ FormatInt (-1700000000) = lit "-1700000000" := by
  decide

/-- Standard base64 on some inputs, among them the salts of the tests, an input with line breaks,
and malformed inputs with the byte offsets that the decoder reports. -/
theorem known_base64 :
    EncodeToString (lit "salt") = lit "c2FsdA==" ∧
    EncodeToString (lit "fixed-salt") = lit "Zml4ZWQtc2FsdA==" ∧
    DecodeString (lit "c2FsdA==") = (lit "salt", none) ∧
    DecodeString (lit "Zml4\nZWQtc2FsdA==\n") = (lit "fixed-salt", none) ∧
    DecodeString (lit "!!!not-base64!!!") = ([], some (.CorruptInputError 0)) ∧
    DecodeString (lit "c2FsdA=") = (lit "sal", some (.CorruptInputError 7)) ∧
    DecodeString (lit "c2FsdA==x") = (lit "salt", some (.CorruptInputError 8)) ∧
    DecodeString (lit "c2FsdA") = (lit "sal", some (.CorruptInputError 4)) ∧
    (GoError.wrapf "bad salt: " (.CorruptInputError 0)).Error
      = lit "bad salt: illegal base64 data at input byte 0" := by
  decide

/-- The digests of the empty message and of "abc" (FIPS 180-4 test vectors). -/
theorem known_Sum256 :
    SHA256.Sum256 (lit "abc") =
      [0xba, 0x78, 0x16, 0xbf, 0x8f, 0x01, 0xcf, 0xea, 0x41, 0x41, 0x40, 0xde, 0x5d, 0xae, 0x22,
       0x23, 0xb0, 0x03, 0x61, 0xa3, 0x96, 0x17, 0x7a, 0x9c, 0xb4, 0x10, 0xff, 0x61, 0xf2, 0x00,
       0x15, 0xad] ∧
    SHA256.Sum256 [] =
      [0xe3, 0xb0, 0xc4, 0x42, 0x98, 0xfc, 0x1c, 0x14, 0x9a, 0xfb, 0xf4, 0xc8, 0x99, 0x6f, 0xb9,
       0x24, 0x27, 0xae, 0x41, 0xe4, 0x64, 0x9b, 0x93, 0x4c, 0xa4, 0x95, 0x99, 0x1b, 0x78, 0x52,
       0xb8, 0x55] := by
  set_option maxRecDepth 1000000 in decide

/-! ## Theorems: `leadingZeroBits` -/

theorem LeadingZeros8_eq (x : Byte) (hx : x ≠ 0) :
    LeadingZeros8 x = (leadingZerosOfByte x : Int) ∧ leadingZerosOfByte x ≤ 7 := by
  revert x
  set_option maxRecDepth 100000 in decide

theorem leadingZeroBitsLoop_eq (b : Bytes) (total : Int) :
    leadingZeroBitsLoop total b = total + 8 * (leadingZeroBytes b : Int) + firstNonZeroBits b := by
  induction b generalizing total with
  | nil => simp [leadingZeroBitsLoop, leadingZeroBytes, firstNonZeroBits]
  | cons x rest ih =>
    by_cases hx : x = 0
    · subst hx
      have h := ih (total + 8)
      simp only [leadingZeroBytes, firstNonZeroBits] at h
      simp [leadingZeroBitsLoop, leadingZeroBytes, firstNonZeroBits, List.takeWhile, List.find?, h]
      omega
    · have h := (LeadingZeros8_eq x hx).1
      simp [leadingZeroBitsLoop, leadingZeroBytes, firstNonZeroBits, List.takeWhile, List.find?,
        hx, h]

theorem firstNonZeroBits_le (b : Bytes) : firstNonZeroBits b ≤ 7 := by
  unfold firstNonZeroBits
  cases h : b.find? (· ≠ 0) with
  | none => simp
  | some x =>
    have hx : x ≠ 0 := by simpa using List.find?_some h
    exact (LeadingZeros8_eq x hx).2

theorem leadingZeroBytes_replicate (n : Nat) :
    leadingZeroBytes (List.replicate n 0) = n ∧ firstNonZeroBits (List.replicate n 0) = 0 := by
  induction n with
  | zero => simp [leadingZeroBytes, firstNonZeroBits]
  | succ k ih =>
    obtain ⟨h1, h2⟩ := ih
    simp only [leadingZeroBytes, firstNonZeroBits] at h1 h2
    simp [leadingZeroBytes, firstNonZeroBits, List.replicate_succ, List.takeWhile, List.find?, h1,
      h2]

/-- C2: `leadingZeroBits b` is eight times the number of leading zero bytes of `b` plus the
number of leading zero bits (at most 7) of the first non-zero byte, the latter taken as 0 when
there is no non-zero byte; an all-zero sequence of length `n` (also `n = 0`) yields `8 * n`. -/
theorem leadingZeroBits_spec (b : Bytes) :
    leadingZeroBits b = 8 * (leadingZeroBytes b : Int) + (firstNonZeroBits b : Int) ∧
    firstNonZeroBits b ≤ 7 ∧
    ∀ n : Nat, leadingZeroBits (List.replicate n 0) = 8 * (n : Int) := by
  refine ⟨?_, firstNonZeroBits_le b, ?_⟩
  · simpa [leadingZeroBits] using leadingZeroBitsLoop_eq b 0
  · intro n
    have h := leadingZeroBitsLoop_eq (List.replicate n 0) 0
    obtain ⟨h1, h2⟩ := leadingZeroBytes_replicate n
    simp [leadingZeroBits, h, h1, h2]

/-! ## Theorems: `Verify` -/

theorem Verify_unsupported (L : Lib) (now : Int) (ch : Challenge) (sol : Solution)
    (h : ch.Algo ≠ lit "sha256-leading-zero-bits" ∨ ch.Version ≠ 1) :
    Verify L now ch sol = some (.errorsNew "unsupported challenge") := by
  unfold Verify
  rw [if_pos h]

theorem Verify_expired (L : Lib) (now : Int) (ch : Challenge) (sol : Solution)
    (hs : ch.Algo = lit "sha256-leading-zero-bits" ∧ ch.Version = 1) (h : now > ch.Expires) :
    Verify L now ch sol = some (.errorsNew "challenge expired") := by
  unfold Verify
  rw [if_neg (by simp [hs.1, hs.2]), if_pos h]

theorem Verify_bad_salt (L : Lib) (now : Int) (ch : Challenge) (sol : Solution)
    (hs : ch.Algo = lit "sha256-leading-zero-bits" ∧ ch.Version = 1) (h : now ≤ ch.Expires)
    (part : Bytes) (err : GoError) (hd : DecodeString ch.SaltB64 = (part, some err)) :
    Verify L now ch sol = some (.wrapf "bad salt: " err) := by
  unfold Verify
  rw [if_neg (by simp [hs.1, hs.2]), if_neg (by omega), hd]

theorem Verify_decoded (L : Lib) (now : Int) (ch : Challenge) (sol : Solution)
    (hs : ch.Algo = lit "sha256-leading-zero-bits" ∧ ch.Version = 1) (h : now ≤ ch.Expires)
    (salt : Bytes) (hd : DecodeString ch.SaltB64 = (salt, none)) :
    Verify L now ch sol =
      if leadingZeroBits (L.Sum256 (powMessage salt ch.Expires (L.ToLower sol.Nonce)))
          < ch.Difficulty
      then some (.errorsNew "pow invalid") else none := by
  unfold Verify
  rw [if_neg (by simp [hs.1, hs.2]), if_neg (by omega), hd]

/-- C1: `Verify` returns `nil` exactly when the algorithm tag and version are the supported
ones, the clock is not past `Expires`, the salt decodes as standard base64, and the SHA-256
digest of `salt ++ ":" ++ decimal(Expires) ++ ":" ++ lower(nonce)` has at least `Difficulty`
leading zero bits; in every other case the result is a non-nil error. -/
theorem Verify_nil_iff (L : Lib) (now : Int) (ch : Challenge) (n : GoString) :
    (Verify L now ch ⟨n⟩ = none ↔
      (ch.Algo = lit "sha256-leading-zero-bits" ∧ ch.Version = 1) ∧ now ≤ ch.Expires ∧
      ∃ salt, DecodeString ch.SaltB64 = (salt, none) ∧
        leadingZeroBits
          (L.Sum256 (salt ++ lit ":" ++ FormatInt ch.Expires ++ lit ":" ++ L.ToLower n))
          ≥ ch.Difficulty) ∧
    (Verify L now ch ⟨n⟩ ≠ none → ∃ e, Verify L now ch ⟨n⟩ = some e) := by
  refine ⟨?_, fun h => Option.ne_none_iff_exists'.mp h⟩
  have hpm : ∀ salt, salt ++ lit ":" ++ FormatInt ch.Expires ++ lit ":" ++ L.ToLower n
      = powMessage salt ch.Expires (L.ToLower n) := by
    intro salt
    simp [powMessage, show lit ":" = [58] by decide]
  by_cases hs : ch.Algo = lit "sha256-leading-zero-bits" ∧ ch.Version = 1
  · by_cases hn : now ≤ ch.Expires
    · rcases hdec : DecodeString ch.SaltB64 with ⟨salt, _ | err⟩
      · rw [Verify_decoded L now ch ⟨n⟩ hs hn salt hdec]
        dsimp only
        constructor
        · intro h
          refine ⟨hs, hn, salt, rfl, ?_⟩
          rw [hpm]
          by_contra hlt
          rw [if_pos (by omega)] at h
          cases h
        · rintro ⟨_, _, salt2, h2, hge⟩
          cases h2
          rw [hpm] at hge
          rw [if_neg (by omega)]
      · rw [Verify_bad_salt L now ch ⟨n⟩ hs hn salt err hdec]
        constructor
        · intro h
          cases h
        · rintro ⟨_, _, salt2, h2, _⟩
          cases h2
    · rw [Verify_expired L now ch ⟨n⟩ hs (by omega)]
      constructor
      · intro h
        cases h
      · rintro ⟨_, h, _⟩
        exact absurd h hn
  · rw [Verify_unsupported L now ch ⟨n⟩ (by
      by_cases ha : ch.Algo = lit "sha256-leading-zero-bits"
      · exact Or.inr fun hv => hs ⟨ha, hv⟩
      · exact Or.inl ha)]
    constructor
    · intro h
      cases h
    · rintro ⟨h, _⟩
      exact absurd h hs

/-- C6: for a supported, unexpired challenge whose salt decodes, if the digest of the nonce has
exactly `K` leading zero bits then `Verify` succeeds for every difficulty `d ≤ K` and fails with
"pow invalid" for difficulty `K + 1`, the other fields of the challenge being unchanged. -/
theorem Verify_boundary (L : Lib) (now : Int) (ch : Challenge) (n : GoString) (salt : Bytes)
    (K : Int)
    (hs : ch.Algo = lit "sha256-leading-zero-bits" ∧ ch.Version = 1) (hn : now ≤ ch.Expires)
    (hd : DecodeString ch.SaltB64 = (salt, none))
    (hK : leadingZeroBits
      (L.Sum256 (salt ++ lit ":" ++ FormatInt ch.Expires ++ lit ":" ++ L.ToLower n)) = K) :
    (∀ d : Int, d ≤ K → Verify L now { ch with Difficulty := d } ⟨n⟩ = none) ∧
    Verify L now { ch with Difficulty := K + 1 } ⟨n⟩ = some (.errorsNew "pow invalid") := by
  have hpm : salt ++ lit ":" ++ FormatInt ch.Expires ++ lit ":" ++ L.ToLower n
      = powMessage salt ch.Expires (L.ToLower n) := by
    simp [powMessage, show lit ":" = [58] by decide]
  rw [hpm] at hK
  constructor
  · intro d hle
    rw [Verify_decoded L now { ch with Difficulty := d } ⟨n⟩ hs hn salt hd]
    dsimp only
    rw [if_neg (by omega)]
  · rw [Verify_decoded L now { ch with Difficulty := K + 1 } ⟨n⟩ hs hn salt hd]
    dsimp only
    rw [if_pos (by omega)]

theorem Verify_boundary_witness :
    (sampleChallenge.Algo = lit "sha256-leading-zero-bits" ∧ sampleChallenge.Version = 1) ∧
    (1699999990 : Int) ≤ sampleChallenge.Expires ∧
    DecodeString sampleChallenge.SaltB64 = (lit "salt", none) ∧
    ((∀ d : Int, d ≤ 14 →
        Verify goLib 1699999990 { sampleChallenge with Difficulty := d } ⟨lit "E6D"⟩ = none) ∧
      Verify goLib 1699999990 { sampleChallenge with Difficulty := 14 + 1 } ⟨lit "E6D"⟩
        = some (.errorsNew "pow invalid")) :=
  ⟨by decide, by decide, by decide,
    Verify_boundary goLib 1699999990 sampleChallenge (lit "E6D") (lit "salt") 14
      (by decide) (by decide) (by decide) (by set_option maxRecDepth 1000000 in decide)⟩

/-- C7: two nonces that differ only in letter case (their lower-cased forms are equal) give the
same result of `Verify` for the same challenge at the same time: both `nil` or the same error. -/
theorem Verify_case_insensitive (L : Lib) (now : Int) (ch : Challenge) (n1 n2 : GoString)
    (h : L.ToLower n1 = L.ToLower n2) :
    Verify L now ch ⟨n1⟩ = Verify L now ch ⟨n2⟩ := by
  unfold Verify
  simp only [h]

theorem Verify_case_insensitive_witness :
    goLib.ToLower (lit "0ABC") = goLib.ToLower (lit "0abc") ∧
    Verify goLib 1699999990 sampleChallenge ⟨lit "0ABC"⟩
      = Verify goLib 1699999990 sampleChallenge ⟨lit "0abc"⟩ :=
  ⟨by decide,
    Verify_case_insensitive goLib 1699999990 sampleChallenge (lit "0ABC") (lit "0abc")
      (by decide)⟩

/-- C8: at two evaluation times that are both not after `Expires`, `Verify` returns the same
outcome for the same challenge and nonce; more generally the clock enters the result only
through the comparison `now > Expires`. -/
theorem Verify_time_independent (L : Lib) (ch : Challenge) (n : GoString) (t1 t2 : Int)
    (h1 : t1 ≤ ch.Expires) (h2 : t2 ≤ ch.Expires) :
    Verify L t1 ch ⟨n⟩ = Verify L t2 ch ⟨n⟩ ∧
    ∀ t t' : Int, decide (t > ch.Expires) = decide (t' > ch.Expires) →
      Verify L t ch ⟨n⟩ = Verify L t' ch ⟨n⟩ := by
  have key : ∀ t t' : Int, decide (t > ch.Expires) = decide (t' > ch.Expires) →
      Verify L t ch ⟨n⟩ = Verify L t' ch ⟨n⟩ := by
    intro t t' h
    have h' : (t > ch.Expires) = (t' > ch.Expires) := by
      simpa using h
    unfold Verify
    simp only [h']
  refine ⟨key t1 t2 ?_, key⟩
  rw [decide_eq_false (by omega), decide_eq_false (by omega)]

theorem Verify_time_independent_witness :
    (1600000000 : Int) ≤ sampleChallenge.Expires ∧ (1700000000 : Int) ≤ sampleChallenge.Expires ∧
    Verify goLib 1600000000 sampleChallenge ⟨lit "E6D"⟩
      = Verify goLib 1700000000 sampleChallenge ⟨lit "E6D"⟩ :=
  ⟨by decide, by decide,
    (Verify_time_independent goLib sampleChallenge (lit "E6D") 1600000000 1700000000
      (by decide) (by decide)).1⟩

/-- C9: `Verify` reports its rejection reason in a fixed priority order. An unsupported algorithm
or version gives "unsupported challenge" whatever the expiry, salt and nonce; otherwise a clock
past `Expires` gives "challenge expired" whatever the salt; otherwise a salt that does not decode
gives an error whose text begins with "bad salt"; otherwise a digest with fewer leading zero
bits than `Difficulty` gives "pow invalid". -/
theorem Verify_priority (L : Lib) (now : Int) (ch : Challenge) (n : GoString) :
    ((ch.Algo ≠ lit "sha256-leading-zero-bits" ∨ ch.Version ≠ 1) →
      Verify L now ch ⟨n⟩ = some (.errorsNew "unsupported challenge")) ∧
    ((ch.Algo = lit "sha256-leading-zero-bits" ∧ ch.Version = 1) → now > ch.Expires →
      Verify L now ch ⟨n⟩ = some (.errorsNew "challenge expired")) ∧
    ((ch.Algo = lit "sha256-leading-zero-bits" ∧ ch.Version = 1) → now ≤ ch.Expires →
      ∀ part err, DecodeString ch.SaltB64 = (part, some err) →
        ∃ e, Verify L now ch ⟨n⟩ = some e ∧ lit "bad salt" <+: e.Error) ∧
    ((ch.Algo = lit "sha256-leading-zero-bits" ∧ ch.Version = 1) → now ≤ ch.Expires →
      ∀ salt, DecodeString ch.SaltB64 = (salt, none) →
        leadingZeroBits (L.Sum256 (powMessage salt ch.Expires (L.ToLower n))) < ch.Difficulty →
        Verify L now ch ⟨n⟩ = some (.errorsNew "pow invalid")) := by
  refine ⟨Verify_unsupported L now ch ⟨n⟩, Verify_expired L now ch ⟨n⟩, ?_, ?_⟩
  · intro hs hn part err hd
    refine ⟨.wrapf "bad salt: " err, Verify_bad_salt L now ch ⟨n⟩ hs hn part err hd, ?_⟩
    have hl : lit "bad salt: " = lit "bad salt" ++ lit ": " := by decide
    simp only [GoError.Error, hl, List.append_assoc]
    exact List.prefix_append _ _
  · intro hs hn salt hd hlt
    rw [Verify_decoded L now ch ⟨n⟩ hs hn salt hd]
    exact if_pos hlt

theorem Verify_priority_witness :
    Verify goLib 1800000000 { sampleChallenge with Algo := lit "md5", SaltB64 := lit "!!" }
        ⟨lit "E6D"⟩ = some (.errorsNew "unsupported challenge") ∧
    Verify goLib 1800000000 { sampleChallenge with SaltB64 := lit "!!!not-base64!!!" }
        ⟨lit "E6D"⟩ = some (.errorsNew "challenge expired") ∧
    (∃ e, Verify goLib 1600000000 { sampleChallenge with SaltB64 := lit "!!!not-base64!!!" }
        ⟨lit "E6D"⟩ = some e ∧ lit "bad salt" <+: e.Error) ∧
    Verify goLib 1600000000 { sampleChallenge with Difficulty := 15 } ⟨lit "E6D"⟩
        = some (.errorsNew "pow invalid") :=
  ⟨(Verify_priority goLib 1800000000 { sampleChallenge with Algo := lit "md5", SaltB64 := lit "!!" }
      (lit "E6D")).1 (by decide),
    (Verify_priority goLib 1800000000 { sampleChallenge with SaltB64 := lit "!!!not-base64!!!" }
      (lit "E6D")).2.1 (by decide) (by decide),
    (Verify_priority goLib 1600000000 { sampleChallenge with SaltB64 := lit "!!!not-base64!!!" }
      (lit "E6D")).2.2.1 (by decide) (by decide) [] (.CorruptInputError 0) (by decide),
    (Verify_priority goLib 1600000000 { sampleChallenge with Difficulty := 15 }
      (lit "E6D")).2.2.2 (by decide) (by decide) (lit "salt") (by decide)
      (by set_option maxRecDepth 1000000 in decide)⟩

/-! ## Theorems: base64 round trip -/

theorem and_0x3F (x : Nat) : x &&& 0x3F = x % 64 := Nat.and_pow_two_sub_one_eq_mod x 6

theorem shiftLeft_or_eq (x y k : Nat) (hy : y < 2 ^ k) : x <<< k ||| y = x * 2 ^ k + y := by
  rw [Nat.shiftLeft_eq, Nat.mul_comm x, ← Nat.mul_add_lt_is_or hy]

theorem pack3_eq (a b c : Nat) (hb : b < 256) (hc : c < 256) :
    a <<< 16 ||| b <<< 8 ||| c = a * 65536 + b * 256 + c := by
  have h1 : b <<< 8 = b * 256 := by rw [Nat.shiftLeft_eq]
  have h2 : a <<< 16 ||| b <<< 8 = a * 65536 + b * 256 := by
    rw [h1]
    exact shiftLeft_or_eq a (b * 256) 16 (by omega)
  rw [h2]
  have h3 : a * 65536 + b * 256 = (a * 256 + b) <<< 8 := by
    rw [Nat.shiftLeft_eq]
    omega
  rw [h3, shiftLeft_or_eq _ c 8 (by omega)]
  omega

theorem pack4_eq (d0 d1 d2 d3 : Nat) (h1 : d1 < 64) (h2 : d2 < 64) (h3 : d3 < 64) :
    d0 <<< 18 ||| d1 <<< 12 ||| d2 <<< 6 ||| d3 = d0 * 262144 + d1 * 4096 + d2 * 64 + d3 := by
  have e1 : d1 <<< 12 = d1 * 4096 := by rw [Nat.shiftLeft_eq]
  have e2 : d2 <<< 6 = d2 * 64 := by rw [Nat.shiftLeft_eq]
  have s1 : d0 <<< 18 ||| d1 <<< 12 = d0 * 262144 + d1 * 4096 := by
    rw [e1]
    exact shiftLeft_or_eq d0 (d1 * 4096) 18 (by omega)
  have s2 : d0 * 262144 + d1 * 4096 = (d0 * 64 + d1) <<< 12 := by
    rw [Nat.shiftLeft_eq]
    omega
  have s3 : (d0 * 64 + d1) <<< 12 ||| d2 <<< 6 = (d0 * 64 + d1) * 4096 + d2 * 64 := by
    rw [e2]
    exact shiftLeft_or_eq _ (d2 * 64) 12 (by omega)
  have s4 : (d0 * 64 + d1) * 4096 + d2 * 64 = ((d0 * 64 + d1) * 64 + d2) <<< 6 := by
    rw [Nat.shiftLeft_eq]
    omega
  rw [s1, s2, s3, s4, shiftLeft_or_eq _ d3 6 (by omega)]
  omega

theorem decodeMap_encodeTab (i : Nat) (hi : i < 64) :
    decodeMap (encodeTab i) = i ∧ decodeMap (encodeTab i) ≠ 0xff := by
  have h : ∀ k : Fin 64, decodeMap (encodeTab k.val) = k.val ∧
      decodeMap (encodeTab k.val) ≠ 0xff := by
    set_option maxRecDepth 100000 in decide
  exact h ⟨i, hi⟩

theorem EncodeToString_three (a b c : Byte) (rest : Bytes) :
    EncodeToString (a :: b :: c :: rest) =
      encodeTab ((a.val * 65536 + b.val * 256 + c.val) / 262144 % 64) ::
      encodeTab ((a.val * 65536 + b.val * 256 + c.val) / 4096 % 64) ::
      encodeTab ((a.val * 65536 + b.val * 256 + c.val) / 64 % 64) ::
      encodeTab ((a.val * 65536 + b.val * 256 + c.val) % 64) :: EncodeToString rest := by
  simp only [EncodeToString, pack3_eq a.val b.val c.val b.isLt c.isLt, and_0x3F,
    Nat.shiftRight_eq_div_pow]

theorem EncodeToString_two (a b : Byte) :
    EncodeToString [a, b] =
      [encodeTab ((a.val * 65536 + b.val * 256) / 262144 % 64),
       encodeTab ((a.val * 65536 + b.val * 256) / 4096 % 64),
       encodeTab ((a.val * 65536 + b.val * 256) / 64 % 64), padChar] := by
  have hb := b.isLt
  have h : a.val <<< 16 ||| b.val <<< 8 = a.val * 65536 + b.val * 256 := by
    rw [shiftLeft_or_eq a.val (b.val <<< 8) 16 (by rw [Nat.shiftLeft_eq]; omega),
      Nat.shiftLeft_eq]
    omega
  simp only [EncodeToString, h, and_0x3F, Nat.shiftRight_eq_div_pow]

theorem EncodeToString_one (a : Byte) :
    EncodeToString [a] =
      [encodeTab ((a.val * 65536) / 262144 % 64), encodeTab ((a.val * 65536) / 4096 % 64),
       padChar, padChar] := by
  simp only [EncodeToString, Nat.shiftLeft_eq, and_0x3F, Nat.shiftRight_eq_div_pow]

theorem quantumBytes_three (a b c : Byte) :
    quantumBytes ((a.val * 65536 + b.val * 256 + c.val) / 262144 % 64)
      ((a.val * 65536 + b.val * 256 + c.val) / 4096 % 64)
      ((a.val * 65536 + b.val * 256 + c.val) / 64 % 64)
      ((a.val * 65536 + b.val * 256 + c.val) % 64) 4 = [a, b, c] := by
  have ha := a.isLt
  have hb := b.isLt
  have hc := c.isLt
  simp only [quantumBytes, byteOf, Nat.shiftRight_eq_div_pow]
  rw [pack4_eq _ _ _ _ (Nat.mod_lt _ (by omega)) (Nat.mod_lt _ (by omega))
    (Nat.mod_lt _ (by omega))]
  simp only [List.take, List.cons.injEq, and_true]
  refine ⟨Fin.ext ?_, Fin.ext ?_, Fin.ext ?_⟩ <;> simp only [] <;> omega

theorem quantumBytes_two (a b : Byte) :
    quantumBytes ((a.val * 65536 + b.val * 256) / 262144 % 64)
      ((a.val * 65536 + b.val * 256) / 4096 % 64)
      ((a.val * 65536 + b.val * 256) / 64 % 64) 0 3 = [a, b] := by
  have ha := a.isLt
  have hb := b.isLt
  simp only [quantumBytes, byteOf, Nat.shiftRight_eq_div_pow]
  rw [pack4_eq _ _ _ _ (Nat.mod_lt _ (by omega)) (Nat.mod_lt _ (by omega)) (by omega)]
  simp only [List.take, List.cons.injEq, and_true]
  refine ⟨Fin.ext ?_, Fin.ext ?_⟩ <;> simp only [] <;> omega

theorem quantumBytes_one (a : Byte) :
    quantumBytes ((a.val * 65536) / 262144 % 64) ((a.val * 65536) / 4096 % 64) 0 0 2 = [a] := by
  have ha := a.isLt
  simp only [quantumBytes, byteOf, Nat.shiftRight_eq_div_pow]
  rw [pack4_eq _ _ _ _ (Nat.mod_lt _ (by omega)) (by omega) (by omega)]
  simp only [List.take, List.cons.injEq, and_true]
  exact Fin.ext (by simp only []; omega)

theorem Decode_sextet (n j d0 d1 d2 : Nat) (out : Bytes) (si : Nat) (rest : Bytes) (i : Nat)
    (hi : i < 64) :
    Decode n j d0 d1 d2 out si (encodeTab i :: rest) =
      match j with
      | 0 => Decode n 1 i 0 0 out (si + 1) rest
      | 1 => Decode n 2 d0 i 0 out (si + 1) rest
      | 2 => Decode n 3 d0 d1 i out (si + 1) rest
      | _ => Decode n 0 0 0 0 (out ++ quantumBytes d0 d1 d2 i 4) (si + 1) rest := by
  have h1 := (decodeMap_encodeTab i hi).1
  have hne : i ≠ 255 := by omega
  rcases j with _ | _ | _ | k <;> simp [Decode, h1, hne]

theorem Decode_pad_two (n d0 d1 : Nat) (out : Bytes) (si : Nat) :
    Decode n 2 d0 d1 0 out si [padChar, padChar] = (out ++ quantumBytes d0 d1 0 0 2, none) := by
  have h1 : decodeMap padChar = 255 := by decide
  have h2 : isNewline padChar = false := by decide
  simp [Decode, decodePadTail, h1, h2]

theorem Decode_pad_one (n d0 d1 d2 : Nat) (out : Bytes) (si : Nat) :
    Decode n 3 d0 d1 d2 out si [padChar] = (out ++ quantumBytes d0 d1 d2 0 3, none) := by
  have h1 : decodeMap padChar = 255 := by decide
  have h2 : isNewline padChar = false := by decide
  simp [Decode, decodePadTail, h1, h2]

theorem bytes_induction3 {P : Bytes → Prop} (h0 : P []) (h1 : ∀ a, P [a]) (h2 : ∀ a b, P [a, b])
    (h3 : ∀ a b c rest, P rest → P (a :: b :: c :: rest)) : ∀ r, P r
  | [] => h0
  | [a] => h1 a
  | [a, b] => h2 a b
  | a :: b :: c :: rest => h3 a b c rest (bytes_induction3 h0 h1 h2 h3 rest)

theorem Decode_EncodeToString (n : Nat) (r : Bytes) :
    ∀ (out : Bytes) (si : Nat), Decode n 0 0 0 0 out si (EncodeToString r) = (out ++ r, none) := by
  induction r using bytes_induction3 with
  | h0 =>
    intro out si
    simp [EncodeToString, Decode]
  | h1 a =>
    intro out si
    rw [EncodeToString_one, Decode_sextet _ _ _ _ _ _ _ _ _ (Nat.mod_lt _ (by omega))]
    simp only []
    rw [Decode_sextet _ _ _ _ _ _ _ _ _ (Nat.mod_lt _ (by omega))]
    simp only []
    rw [Decode_pad_two, quantumBytes_one]
  | h2 a b =>
    intro out si
    rw [EncodeToString_two, Decode_sextet _ _ _ _ _ _ _ _ _ (Nat.mod_lt _ (by omega))]
    simp only []
    rw [Decode_sextet _ _ _ _ _ _ _ _ _ (Nat.mod_lt _ (by omega))]
    simp only []
    rw [Decode_sextet _ _ _ _ _ _ _ _ _ (Nat.mod_lt _ (by omega))]
    simp only []
    rw [Decode_pad_one, quantumBytes_two]
  | h3 a b c rest ih =>
    intro out si
    rw [EncodeToString_three, Decode_sextet _ _ _ _ _ _ _ _ _ (Nat.mod_lt _ (by omega))]
    simp only []
    rw [Decode_sextet _ _ _ _ _ _ _ _ _ (Nat.mod_lt _ (by omega))]
    simp only []
    rw [Decode_sextet _ _ _ _ _ _ _ _ _ (Nat.mod_lt _ (by omega))]
    simp only []
    rw [Decode_sextet _ _ _ _ _ _ _ _ _ (Nat.mod_lt _ (by omega))]
    simp only []
    rw [quantumBytes_three, ih]
    simp

/-- Decoding the standard base64 encoding of any bytes gives back exactly those bytes, with a
nil error. -/
theorem DecodeString_EncodeToString (r : Bytes) :
    DecodeString (EncodeToString r) = (r, none) := by
  simpa [DecodeString] using Decode_EncodeToString (EncodeToString r).length r [] 0

/-! ## Theorems: `NewChallenge` -/

theorem wrap64_of_range (x : Int) (h1 : -9223372036854775808 ≤ x) (h2 : x < 9223372036854775808) :
    wrap64 x = x := by
  unfold wrap64
  norm_num
  omega

theorem Time.Add_seconds (t : Time) (k : Int) :
    (t.Add (k * Second)).1 = t.sec + k := by
  have hn := t.nsec.isLt
  have h1 : (k * 1000000000).tdiv 1000000000 = k := Int.mul_tdiv_cancel k (by decide)
  have h2 : (k * 1000000000).tmod 1000000000 = 0 := Int.mul_tmod_left k 1000000000
  simp only [Time.Add, Second, h1, h2, Int.add_zero]
  rw [if_neg (by omega), if_neg (by omega)]

theorem saltBuffer_full (r : Bytes) (hr : r.length = 16) : saltBuffer r = r := by
  simp [saltBuffer, hr, List.take_of_length_le (Nat.le_of_eq hr)]

/-- C10, as the code has it: the claim as stated fails for an `int64` `ttlSeconds` whose product
with `time.Second` leaves the `int64` range: with `ttlSeconds = 9223372037` the duration wraps
around and `Expires` lies that many seconds before the clock reading instead of after it. -/
theorem NewChallenge_expires_wraps :
    (-9223372036854775808 : Int) ≤ 9223372037 ∧ (9223372037 : Int) < 9223372036854775808 ∧
    sampleRandom.length = 16 ∧
    (NewChallenge sampleNow sampleRandom 10 9223372037).1.Expires = 1700000000 - 9223372037 ∧
    (NewChallenge sampleNow sampleRandom 10 9223372037).1.Expires
      ≠ unixSeconds (sampleNow.nanos + 9223372037 * 1000000000) := by
  decide

/-- C10, amended: for every difficulty `d`, every clock reading `now`, every 16 bytes `r`
delivered by the random source and every `ttlSeconds` whose duration in nanoseconds fits an
`int64` (from -9223372036 to 9223372036, which covers every value the server passes),
`NewChallenge` returns a nil error and a challenge with `Version = 1`, the supported `Algo`,
`Difficulty = d`, `SaltB64` the standard base64 encoding of `r`, which decodes to exactly `r`,
and `Expires` the Unix seconds of `now` plus `ttlSeconds` seconds. -/
theorem NewChallenge_spec (now : Time) (r : Bytes) (d ttlSeconds : Int) (hr : r.length = 16)
    (hlo : -9223372036 ≤ ttlSeconds) (hhi : ttlSeconds ≤ 9223372036) :
    (NewChallenge now r d ttlSeconds).2 = none ∧
    (NewChallenge now r d ttlSeconds).1.Version = 1 ∧
    (NewChallenge now r d ttlSeconds).1.Algo = lit "sha256-leading-zero-bits" ∧
    (NewChallenge now r d ttlSeconds).1.Difficulty = d ∧
    (NewChallenge now r d ttlSeconds).1.SaltB64 = EncodeToString r ∧
    DecodeString (NewChallenge now r d ttlSeconds).1.SaltB64 = (r, none) ∧
    (NewChallenge now r d ttlSeconds).1.Expires
      = unixSeconds (now.nanos + ttlSeconds * 1000000000) := by
  have hw : wrap64 (ttlSeconds * Second) = ttlSeconds * Second := by
    apply wrap64_of_range <;> simp only [Second] <;> omega
  have hn := now.nsec.isLt
  refine ⟨rfl, rfl, rfl, rfl, ?_, ?_, ?_⟩
  · simp only [NewChallenge, saltBuffer_full r hr]
  · simp only [NewChallenge, saltBuffer_full r hr, DecodeString_EncodeToString]
  · simp only [NewChallenge, hw, Time.Add_seconds, unixSeconds, Time.nanos]
    omega

theorem NewChallenge_spec_witness :
    sampleRandom.length = 16 ∧ (-9223372036 : Int) ≤ 90 ∧ (90 : Int) ≤ 9223372036 ∧
    (NewChallenge sampleNow sampleRandom 10 90).2 = none ∧
    (NewChallenge sampleNow sampleRandom 10 90).1.Version = 1 ∧
    (NewChallenge sampleNow sampleRandom 10 90).1.Algo = lit "sha256-leading-zero-bits" ∧
    (NewChallenge sampleNow sampleRandom 10 90).1.Difficulty = 10 ∧
    (NewChallenge sampleNow sampleRandom 10 90).1.SaltB64 = EncodeToString sampleRandom ∧
    DecodeString (NewChallenge sampleNow sampleRandom 10 90).1.SaltB64 = (sampleRandom, none) ∧
    (NewChallenge sampleNow sampleRandom 10 90).1.Expires
      = unixSeconds (sampleNow.nanos + 90 * 1000000000) :=
  ⟨by decide, by decide, by decide,
    NewChallenge_spec sampleNow sampleRandom 10 90 (by decide) (by decide) (by decide)⟩

/-! ## Theorems: the connection handler -/

@[simp] theorem Session.emit_trace (s : Session) (e : Event) :
    (s.emit e).trace = s.trace ++ [e] := rfl

@[simp] theorem Session.emit_wire (s : Session) (e : Event) : (s.emit e).wire = s.wire := rfl

@[simp] theorem Session.emit_werr (s : Session) (e : Event) : (s.emit e).werr = s.werr := rfl

@[simp] theorem Session.writeFlush_trace (s : Session) (c : Conn) (p : Bytes) :
    (s.writeFlush c p).trace = s.trace ++ [.Write p] := by
  unfold Session.writeFlush
  simp only [Session.emit_werr]
  split
  · rfl
  · split
    · rfl
    · split <;> rfl

theorem streamOf_append_write (t : List Event) (p : Bytes) :
    streamOf (t ++ [.Write p]) = streamOf t ++ p := by
  simp [streamOf, writes, List.filterMap_append]

theorem streamOf_append_other (t : List Event) (e : Event) (h : ∀ p, e ≠ .Write p) :
    streamOf (t ++ [e]) = streamOf t := by
  cases e <;> simp [streamOf, writes, List.filterMap_append] at h ⊢

theorem Session.consistent_emit (c : Conn) (s : Session) (e : Event) (h : ∀ p, e ≠ .Write p)
    (hs : s.consistent c) : (s.emit e).consistent c := by
  unfold Session.consistent at hs ⊢
  simp only [Session.emit_trace, Session.emit_wire, Session.emit_werr,
    streamOf_append_other s.trace e h]
  exact hs

theorem Session.consistent_writeFlush (c : Conn) (s : Session) (p : Bytes)
    (hs : s.consistent c) : (s.writeFlush c p).consistent c := by
  obtain ⟨hw, he⟩ := hs
  unfold Session.consistent
  rw [Session.writeFlush_trace, streamOf_append_write]
  unfold Session.writeFlush
  simp only [Session.emit_werr, Session.emit_wire]
  by_cases hwerr : s.werr = true
  · obtain ⟨k, hk, hlt⟩ := he.mp hwerr
    rw [if_pos hwerr]
    simp only [Session.emit_wire, Session.emit_werr, hk] at hw ⊢
    refine ⟨?_, ?_⟩
    · rw [hw, List.take_append_of_le_length (by omega)]
    · simp only [hwerr, true_iff]
      exact ⟨k, rfl, by simp only [List.length_append]; omega⟩
  · rw [if_neg hwerr]
    have hno : ¬ ∃ k, c.accepts = some k ∧ k < (streamOf s.trace).length := fun h =>
      hwerr (he.mpr h)
    cases hacc : c.accepts with
    | none =>
      simp only [hacc] at hw ⊢
      refine ⟨by rw [hw], ?_⟩
      simp [hwerr]
    | some k =>
      have hle : (streamOf s.trace).length ≤ k := by
        by_contra hgt
        exact hno ⟨k, hacc, by omega⟩
      simp only [hacc] at hw ⊢
      rw [List.take_of_length_le hle] at hw
      by_cases hfit : s.wire.length + p.length ≤ k
      · rw [if_pos hfit]
        refine ⟨?_, ?_⟩
        · simp only []
          rw [hw, List.take_of_length_le (by rw [hw] at hfit; simpa using hfit)]
        · simp only [hwerr, false_iff, Bool.false_eq_true]
          rintro ⟨k2, hk2, hlt⟩
          cases hk2
          rw [hw] at hfit
          simp only [List.length_append] at hlt
          omega
      · rw [if_neg hfit]
        refine ⟨?_, ?_⟩
        · simp only []
          rw [hw, List.take_append_eq_append_take, List.take_of_length_le hle]
        · simp only [true_iff]
          refine ⟨k, rfl, ?_⟩
          rw [hw] at hfit
          simp only [List.length_append]
          omega

theorem Session.consistent_init (c : Conn) : (⟨[], [], false⟩ : Session).consistent c := by
  unfold Session.consistent
  cases c.accepts <;> simp [streamOf, writes]

/-- On every run of `handle` the bytes taken by the connection are the written stream cut at the
point where the connection stops accepting writes. -/
theorem handle_wire (srv : Server) (c : Conn) (difficulty : Int) :
    (handle srv c difficulty).wire
      = delivered c.accepts (streamOf (handle srv c difficulty).trace) := by
  have h : (handle srv c difficulty).consistent c := by
    unfold handle
    simp only []
    repeat' split
    all_goals
      repeat first
        | exact Session.consistent_init c
        | apply Session.consistent_writeFlush
        | apply Session.consistent_emit _ _ _ (by intro p hp; cases hp)
  exact h.1

theorem sample_issue :
    sampleServer.pow.NewChallenge 4 sampleServer.ttlSeconds = (issuedChallenge, none) ∧
    sampleServer.codec.Marshal issuedChallenge = (issuedPayload, none) := by
  decide

theorem handle_pow_failed_trace (srv : Server) (c : Conn) (d : Int) (ch : Challenge)
    (payload line : Bytes) (sol : Solution) (err : GoError)
    (hch : srv.pow.NewChallenge d srv.ttlSeconds = (ch, none))
    (hm : srv.codec.Marshal ch = (payload, none))
    (hl : c.line = (line, none))
    (hu : srv.codec.Unmarshal (srv.codec.TrimSpace line) = (sol, none))
    (hne : sol.Nonce ≠ [])
    (hv : srv.pow.Verify ch sol = some err) :
    (handle srv c d).trace =
      [.SetDeadline, .NewChallenge d srv.ttlSeconds, .Write (payload ++ [10]),
        .Log .Debug "challenge issued" none, .ReadString, .Verify ch sol,
        .Write (lit "pow verification failed\n"), .Log .Debug "pow failed" (some err),
        .Close] := by
  simp [handle, hch, hm, hl, hu, hne, hv]

/-- C3: when the solution line parses to a solution with a non-empty nonce and the engine's
`Verify` returns an error, what `handle` writes after the challenge line is exactly
"pow verification failed\n" and `Random` is never called; the bytes are the same for every
error value: a run against an engine that rejects the same solution with any other error puts
the same bytes on the connection. -/
theorem handle_pow_failed (srv : Server) (c : Conn) (d : Int) (ch : Challenge)
    (payload line : Bytes) (sol : Solution) (err : GoError)
    (hch : srv.pow.NewChallenge d srv.ttlSeconds = (ch, none))
    (hm : srv.codec.Marshal ch = (payload, none))
    (hl : c.line = (line, none))
    (hu : srv.codec.Unmarshal (srv.codec.TrimSpace line) = (sol, none))
    (hne : sol.Nonce ≠ [])
    (hv : srv.pow.Verify ch sol = some err) :
    writes (handle srv c d).trace = [payload ++ lit "\n", lit "pow verification failed\n"] ∧
    (handle srv c d).wire
      = delivered c.accepts (payload ++ lit "\n" ++ lit "pow verification failed\n") ∧
    Event.Random ∉ (handle srv c d).trace ∧
    ∀ (verify2 : Challenge → Solution → error) (err2 : GoError), verify2 ch sol = some err2 →
      (handle { srv with pow := ⟨srv.pow.NewChallenge, verify2⟩ } c d).wire
        = (handle srv c d).wire := by
  have ht := handle_pow_failed_trace srv c d ch payload line sol err hch hm hl hu hne hv
  have hnl : lit "\n" = [10] := by decide
  refine ⟨?_, ?_, ?_, ?_⟩
  · rw [ht, hnl]
    simp [writes]
  · rw [handle_wire, ht, hnl]
    simp [streamOf, writes]
  · rw [ht]
    simp
  · intro verify2 err2 hv2
    have ht2 := handle_pow_failed_trace { srv with pow := ⟨srv.pow.NewChallenge, verify2⟩ } c d
      ch payload line sol err2 hch hm hl hu hne hv2
    rw [handle_wire, handle_wire, ht, ht2]
    simp [streamOf, writes]

theorem handle_pow_failed_witness :
    sampleServer.codec.Unmarshal
        (sampleServer.codec.TrimSpace (lit "\x7b\"nonce\":\"deadbeef\"\x7d\n"))
      = (⟨lit "deadbeef"⟩, none) ∧
    sampleServer.pow.Verify issuedChallenge ⟨lit "deadbeef"⟩
      = some (.errorsNew "pow invalid") ∧
    writes (handle sampleServer (peerSending "\x7b\"nonce\":\"deadbeef\"\x7d\n") 4).trace
      = [issuedPayload ++ lit "\n", lit "pow verification failed\n"] ∧
    (handle sampleServer (peerSending "\x7b\"nonce\":\"deadbeef\"\x7d\n") 4).wire
      = delivered none (issuedPayload ++ lit "\n" ++ lit "pow verification failed\n") ∧
    Event.Random ∉ (handle sampleServer (peerSending "\x7b\"nonce\":\"deadbeef\"\x7d\n") 4).trace :=
  have h := handle_pow_failed sampleServer (peerSending "\x7b\"nonce\":\"deadbeef\"\x7d\n") 4
    issuedChallenge issuedPayload (lit "\x7b\"nonce\":\"deadbeef\"\x7d\n") ⟨lit "deadbeef"⟩
    (.errorsNew "pow invalid") sample_issue.1 sample_issue.2 rfl (by decide) (by decide)
    (by set_option maxRecDepth 1000000 in decide)
  ⟨by decide, by set_option maxRecDepth 1000000 in decide, h.1, h.2.1, h.2.2.1⟩

/-- C4: when the line received from the client, after trimming, fails to parse as a solution
record or parses to a solution whose nonce is empty, `handle` writes exactly
"invalid solution json\n" after the challenge line and returns without calling `Verify` or
`Random`. -/
theorem handle_invalid_solution (srv : Server) (c : Conn) (d : Int) (ch : Challenge)
    (payload line : Bytes)
    (hch : srv.pow.NewChallenge d srv.ttlSeconds = (ch, none))
    (hm : srv.codec.Marshal ch = (payload, none))
    (hl : c.line = (line, none))
    (hbad : (srv.codec.Unmarshal (srv.codec.TrimSpace line)).2 ≠ none ∨
      (srv.codec.Unmarshal (srv.codec.TrimSpace line)).1.Nonce = []) :
    writes (handle srv c d).trace = [payload ++ lit "\n", lit "invalid solution json\n"] ∧
    (handle srv c d).wire
      = delivered c.accepts (payload ++ lit "\n" ++ lit "invalid solution json\n") ∧
    verifyCalls (handle srv c d).trace = [] ∧
    Event.Random ∉ (handle srv c d).trace ∧
    (handle srv c d).trace.getLast? = some .Close := by
  have ht : (handle srv c d).trace =
      [.SetDeadline, .NewChallenge d srv.ttlSeconds, .Write (payload ++ [10]),
        .Log .Debug "challenge issued" none, .ReadString,
        .Write (lit "invalid solution json\n"),
        .Log .Debug "bad solution" (srv.codec.Unmarshal (srv.codec.TrimSpace line)).2,
        .Close] := by
    rcases hun : srv.codec.Unmarshal (srv.codec.TrimSpace line) with ⟨sol, e⟩
    rw [hun] at hbad
    simp only [] at hbad
    simp [handle, hch, hm, hl, hun, hbad]
  have hnl : lit "\n" = [10] := by decide
  refine ⟨?_, ?_, ?_, ?_, ?_⟩
  · rw [ht, hnl]
    simp [writes]
  · rw [handle_wire, ht, hnl]
    simp [streamOf, writes]
  · rw [ht]
    simp [verifyCalls]
  · rw [ht]
    simp
  · rw [ht]
    simp

theorem handle_invalid_solution_witness :
    ((sampleServer.codec.Unmarshal (sampleServer.codec.TrimSpace (lit "not a json\n"))).2 ≠ none ∨
      (sampleServer.codec.Unmarshal
        (sampleServer.codec.TrimSpace (lit "not a json\n"))).1.Nonce = []) ∧
    writes (handle sampleServer (peerSending "not a json\n") 4).trace
      = [issuedPayload ++ lit "\n", lit "invalid solution json\n"] ∧
    (handle sampleServer (peerSending "not a json\n") 4).wire
      = delivered none (issuedPayload ++ lit "\n" ++ lit "invalid solution json\n") ∧
    verifyCalls (handle sampleServer (peerSending "not a json\n") 4).trace = [] ∧
    Event.Random ∉ (handle sampleServer (peerSending "not a json\n") 4).trace ∧
    (handle sampleServer (peerSending "not a json\n") 4).trace.getLast? = some .Close :=
  ⟨by decide,
    handle_invalid_solution sampleServer (peerSending "not a json\n") 4 issuedChallenge
      issuedPayload (lit "not a json\n") sample_issue.1 sample_issue.2 rfl (by decide)⟩

/-- C5: when the solution line parses to a non-empty nonce and `Verify` returns nil, `handle`
calls `NewChallenge` exactly once, `Verify` exactly once with the challenge that was issued, and
`Random` exactly once; the output written to the connection is the JSON challenge line followed
by exactly `Random() ++ "\n"`; after that write nothing is read or written: the line is read
once, before the reward is written, and the run ends with the log record and `Close`. -/
theorem handle_success (srv : Server) (c : Conn) (d : Int) (ch : Challenge)
    (payload line : Bytes) (sol : Solution)
    (hch : srv.pow.NewChallenge d srv.ttlSeconds = (ch, none))
    (hm : srv.codec.Marshal ch = (payload, none))
    (hl : c.line = (line, none))
    (hu : srv.codec.Unmarshal (srv.codec.TrimSpace line) = (sol, none))
    (hne : sol.Nonce ≠ [])
    (hv : srv.pow.Verify ch sol = none) :
    (handle srv c d).trace =
      [.SetDeadline, .NewChallenge d srv.ttlSeconds, .Write (payload ++ lit "\n"),
        .Log .Debug "challenge issued" none, .ReadString, .Verify ch sol, .Random,
        .Write (srv.quotes.Random () ++ lit "\n"), .Log .Info "success" none, .Close] ∧
    newChallengeCalls (handle srv c d).trace = [(d, srv.ttlSeconds)] ∧
    verifyCalls (handle srv c d).trace = [(ch, sol)] ∧
    (handle srv c d).trace.count .Random = 1 ∧
    (handle srv c d).trace.count .ReadString = 1 ∧
    writes (handle srv c d).trace = [payload ++ lit "\n", srv.quotes.Random () ++ lit "\n"] ∧
    (handle srv c d).wire
      = delivered c.accepts (payload ++ lit "\n" ++ (srv.quotes.Random () ++ lit "\n")) := by
  have hnl : lit "\n" = [10] := by decide
  have ht : (handle srv c d).trace =
      [.SetDeadline, .NewChallenge d srv.ttlSeconds, .Write (payload ++ lit "\n"),
        .Log .Debug "challenge issued" none, .ReadString, .Verify ch sol, .Random,
        .Write (srv.quotes.Random () ++ lit "\n"), .Log .Info "success" none, .Close] := by
    simp [handle, hch, hm, hl, hu, hne, hv, hnl]
  refine ⟨ht, ?_, ?_, ?_, ?_, ?_, ?_⟩
  · rw [ht]
    simp [newChallengeCalls]
  · rw [ht]
    simp [verifyCalls]
  · rw [ht]
    simp [List.count_cons]
  · rw [ht]
    simp [List.count_cons]
  · rw [ht]
    simp [writes]
  · rw [handle_wire, ht]
    simp [streamOf, writes, delivered]

theorem handle_success_witness :
    sampleServer.codec.Unmarshal (sampleServer.codec.TrimSpace (lit "\x7b\"nonce\":\"A\"\x7d\n"))
      = (⟨lit "A"⟩, none) ∧
    sampleServer.pow.Verify issuedChallenge ⟨lit "A"⟩ = none ∧
    writes (handle sampleServer (peerSending "\x7b\"nonce\":\"A\"\x7d\n") 4).trace
      = [issuedPayload ++ lit "\n", lit "hello, world" ++ lit "\n"] ∧
    (handle sampleServer (peerSending "\x7b\"nonce\":\"A\"\x7d\n") 4).wire
      = issuedPayload ++ lit "\n" ++ (lit "hello, world" ++ lit "\n") :=
  have h := handle_success sampleServer (peerSending "\x7b\"nonce\":\"A\"\x7d\n") 4
    issuedChallenge issuedPayload (lit "\x7b\"nonce\":\"A\"\x7d\n") ⟨lit "A"⟩
    sample_issue.1 sample_issue.2 rfl (by decide) (by decide)
    (by set_option maxRecDepth 1000000 in decide)
  ⟨by decide, by set_option maxRecDepth 1000000 in decide, h.2.2.2.2.2.1, h.2.2.2.2.2.2⟩

/-! ## Theorems: the accept loop -/

theorem acceptLoop_append (pre : List Accepted) (hpre : ∀ x ∈ pre, keepsRunning x = true)
    (l : List Accepted) (t : List RunEvent) :
    acceptLoop (pre ++ l) t = acceptLoop l (t ++ loopSteps pre) := by
  induction pre generalizing t with
  | nil => simp [loopSteps]
  | cons x pre ih =>
    have hx := hpre x (List.mem_cons_self x pre)
    have hrest : ∀ y ∈ pre, keepsRunning y = true := fun y hy =>
      hpre y (List.mem_cons_of_mem x hy)
    cases x with
    | conn c =>
      simp only [List.cons_append, acceptLoop, loopSteps]
      exact (ih hrest _).trans (by simp)
    | fail e =>
      simp only [keepsRunning, Bool.and_eq_true, Bool.not_eq_true'] at hx
      simp only [List.cons_append, acceptLoop, loopSteps, hx.1, hx.2, Bool.false_eq_true,
        if_false, if_true]
      exact (ih hrest _).trans (by simp)

/-- C11, as the code has it: an accept error that is neither the "listener closed" error nor
temporary ends the loop with an error, and `Run` returns that error: here the third call of
`Accept` fails with such an error and `Run` returns "accept: accept tcp: invalid argument". -/
theorem acceptLoop_other_error_fatal :
    (acceptLoop failingAcceptRun.accepted []).2
      = some (some (.wrapf "accept: " (.errorsNew "accept tcp: invalid argument"))) ∧
    (Run failingAcceptRun).2
      = some (some (.wrapf "accept: " (.errorsNew "accept tcp: invalid argument"))) ∧
    (Run failingAcceptRun).2 ≠ some none := by
  decide

/-- C11, amended: for an error returned by `Accept` inside `acceptLoop`, after any number of
accepted connections and retried errors: the "listener closed" error ends the loop with a nil
result; an error that is temporary (and not "listener closed") is logged, the loop sleeps 50
milliseconds and calls `Accept` again; every other error ends the loop with the error
"accept: ..." wrapped around it, and `Run`, when its context is not cancelled, returns that
error. -/
theorem acceptLoop_errors (pre rest : List Accepted) (e : AcceptError) (t : List RunEvent)
    (hpre : ∀ x ∈ pre, keepsRunning x = true) :
    (e.isClosed = true →
      acceptLoop (pre ++ .fail e :: rest) t = (t ++ loopSteps pre ++ [.Accept], some none)) ∧
    (e.isClosed = false → e.isTemporary = true →
      acceptLoop (pre ++ .fail e :: rest) t =
        acceptLoop rest (t ++ loopSteps pre ++
          [.Accept, .Log .Warn "temporary accept error" (some e.err), .Sleep 50])) ∧
    (e.isClosed = false → e.isTemporary = false →
      acceptLoop (pre ++ .fail e :: rest) t
        = (t ++ loopSteps pre ++ [.Accept], some (some (.wrapf "accept: " e.err))) ∧
      ∀ active remaining drained,
        (Run ⟨none, pre ++ .fail e :: rest, .errCh, active, drained, remaining⟩).2
          = some (some (.wrapf "accept: " e.err))) := by
  refine ⟨?_, ?_, ?_⟩
  · intro hc
    rw [acceptLoop_append pre hpre]
    simp [acceptLoop, hc]
  · intro hc ht
    rw [acceptLoop_append pre hpre]
    simp [acceptLoop, hc, ht]
  · intro hc ht
    have h : ∀ t, acceptLoop (pre ++ .fail e :: rest) t
        = (t ++ loopSteps pre ++ [.Accept], some (some (.wrapf "accept: " e.err))) := by
      intro t
      rw [acceptLoop_append pre hpre]
      simp [acceptLoop, hc, ht]
    refine ⟨h t, ?_⟩
    intro active remaining drained
    simp [Run, h]

theorem acceptLoop_errors_witness :
    (∀ x ∈ [Accepted.conn ⟨1, true⟩, .fail temporaryError], keepsRunning x = true) ∧
    acceptLoop ([.conn ⟨1, true⟩, .fail temporaryError] ++ .fail closedError :: []) []
      = ([] ++ loopSteps [.conn ⟨1, true⟩, .fail temporaryError] ++ [.Accept], some none) ∧
    (Run failingAcceptRun).2
      = some (some (.wrapf "accept: " (.errorsNew "accept tcp: invalid argument"))) :=
  ⟨by decide,
    (acceptLoop_errors [.conn ⟨1, true⟩, .fail temporaryError] [] closedError [] (by decide)).1
      rfl,
    ((acceptLoop_errors [.conn ⟨1, true⟩, .fail temporaryError] [] otherError [] (by decide)).2.2
      rfl rfl).2 [] [] true⟩

/-! ## Theorems: failures while the challenge is issued -/

theorem handle_trace_issued (srv : Server) (c : Conn) (d : Int) (ch : Challenge)
    (payload : Bytes)
    (hch : srv.pow.NewChallenge d srv.ttlSeconds = (ch, none))
    (hm : srv.codec.Marshal ch = (payload, none)) :
    ∃ tail, (handle srv c d).trace =
      [.SetDeadline, .NewChallenge d srv.ttlSeconds, .Write (payload ++ [10]),
        .Log .Debug "challenge issued" none, .ReadString] ++ tail := by
  unfold handle
  simp only [hch, hm]
  repeat' split
  all_goals
    simp only [Session.emit_trace, Session.writeFlush_trace, List.nil_append, List.append_assoc,
      List.cons_append]
    exact ⟨_, rfl⟩

/-- C12, as the code has it: the results of writing and flushing the challenge are discarded.
On a connection that takes no byte `handle` still reads the solution line, calls `Verify` and
`Random`, and attempts to write the reward. -/
theorem handle_write_failure_continues :
    (deafPeer "\x7b\"nonce\":\"A\"\x7d\n").accepts = some 0 ∧
    (handle sampleServer (deafPeer "\x7b\"nonce\":\"A\"\x7d\n") 4).wire = [] ∧
    Event.ReadString ∈ (handle sampleServer (deafPeer "\x7b\"nonce\":\"A\"\x7d\n") 4).trace ∧
    Event.Verify issuedChallenge ⟨lit "A"⟩
      ∈ (handle sampleServer (deafPeer "\x7b\"nonce\":\"A\"\x7d\n") 4).trace ∧
    Event.Random ∈ (handle sampleServer (deafPeer "\x7b\"nonce\":\"A\"\x7d\n") 4).trace ∧
    Event.Write (lit "hello, world\n")
      ∈ (handle sampleServer (deafPeer "\x7b\"nonce\":\"A\"\x7d\n") 4).trace := by
  set_option maxRecDepth 1000000 in decide

/-- C12, amended: when encoding the challenge fails, `handle` ends without further action: it
writes nothing, reads no solution line and calls neither `Verify` nor `Random`. When writing or
flushing the challenge fails, the failure goes unnoticed: `handle` goes on to read the solution
line, and no byte beyond the part of the challenge line that the connection took reaches the
peer. -/
theorem handle_challenge_failure (srv : Server) (c : Conn) (d : Int) (ch : Challenge)
    (hch : srv.pow.NewChallenge d srv.ttlSeconds = (ch, none)) :
    (∀ part err, srv.codec.Marshal ch = (part, some err) →
      (handle srv c d).trace =
        [.SetDeadline, .NewChallenge d srv.ttlSeconds,
          .Log .Error "challenge marshal failed" (some err), .Close] ∧
      (handle srv c d).wire = []) ∧
    (∀ payload k, srv.codec.Marshal ch = (payload, none) → c.accepts = some k →
      k < (payload ++ lit "\n").length →
      Event.ReadString ∈ (handle srv c d).trace ∧
      (handle srv c d).wire = (payload ++ lit "\n").take k) := by
  constructor
  · intro part err hm
    have ht : (handle srv c d).trace =
        [.SetDeadline, .NewChallenge d srv.ttlSeconds,
          .Log .Error "challenge marshal failed" (some err), .Close] := by
      simp [handle, hch, hm]
    refine ⟨ht, ?_⟩
    rw [handle_wire, ht]
    cases c.accepts <;> simp [delivered, streamOf, writes]
  · intro payload k hm hk hlt
    obtain ⟨tail, ht⟩ := handle_trace_issued srv c d ch payload hch hm
    have hnl : lit "\n" = [10] := by decide
    rw [hnl] at hlt ⊢
    refine ⟨?_, ?_⟩
    · rw [ht]
      simp
    · rw [handle_wire, ht, hk]
      have hs : streamOf ([.SetDeadline, .NewChallenge d srv.ttlSeconds,
          .Write (payload ++ [10]), .Log .Debug "challenge issued" none, .ReadString] ++ tail)
          = (payload ++ [10]) ++ streamOf tail := by
        simp [streamOf, writes]
      rw [hs]
      exact List.take_append_of_le_length (Nat.le_of_lt hlt)

theorem handle_challenge_failure_witness :
    sampleServer.pow.NewChallenge 4 sampleServer.ttlSeconds = (issuedChallenge, none) ∧
    (handle serverWithFailingMarshal (peerSending "\x7b\"nonce\":\"A\"\x7d\n") 4).trace =
      [.SetDeadline, .NewChallenge 4 90,
        .Log .Error "challenge marshal failed" (some (.errorsNew "json: unsupported value")),
        .Close] ∧
    Event.ReadString ∈ (handle sampleServer (deafPeer "\x7b\"nonce\":\"A\"\x7d\n") 4).trace ∧
    (handle sampleServer (deafPeer "\x7b\"nonce\":\"A\"\x7d\n") 4).wire
      = (issuedPayload ++ lit "\n").take 0 :=
  ⟨sample_issue.1,
    ((handle_challenge_failure serverWithFailingMarshal
      (peerSending "\x7b\"nonce\":\"A\"\x7d\n") 4 issuedChallenge sample_issue.1).1
      [] (.errorsNew "json: unsupported value") rfl).1,
    (handle_challenge_failure sampleServer (deafPeer "\x7b\"nonce\":\"A\"\x7d\n") 4
      issuedChallenge sample_issue.1).2 issuedPayload 0 sample_issue.2 rfl
      (by set_option maxRecDepth 100000 in decide)⟩

/-! ## Theorems: the random source -/

/-- Every run of `handle` begins with the deadline and the call of `NewChallenge`; nothing is
written before that call. -/
theorem handle_trace_begins (srv : Server) (c : Conn) (d : Int) :
    ∃ tail, (handle srv c d).trace = [.SetDeadline, .NewChallenge d srv.ttlSeconds] ++ tail := by
  unfold handle
  simp only []
  repeat' split
  all_goals
    simp only [Session.emit_trace, Session.writeFlush_trace, List.nil_append, List.append_assoc,
      List.cons_append]
    exact ⟨_, rfl⟩

/-- C13, as the code has it: when the random source fails to fill the salt, `NewChallenge` does
not return a non-nil error: the results of `crand.Read` are discarded and the only error the
source ever returns is nil, while the failing read itself aborts the process, so the call
returns nothing. -/
theorem NewChallenge_failure_returns_no_error :
    NewChallengeCall sampleNow .aborted 10 90 = none ∧
    ¬ ∃ ch err, NewChallengeCall sampleNow .aborted 10 90 = some (ch, some err) := by
  constructor
  · rfl
  · rintro ⟨ch, err, h⟩
    cases h

/-- C13, amended: when the random source fails to fill the salt, `NewChallenge` does not return:
the failing read aborts the process, so no error value reaches the caller and `handle` issues no
challenge (its run ends with the steps every run of `handle` makes up to that call, and it has
written nothing). `NewChallenge` never returns a non-nil error, and it never
returns a challenge whose salt was not produced by a successful read: whenever it returns, the
error is nil and the salt decodes to exactly the sixteen bytes read. -/
theorem NewChallenge_random_failure (now : Time) (rd : RandomRead) (d ttlSeconds : Int) :
    (rd = .aborted → NewChallengeCall now rd d ttlSeconds = none) ∧
    (∀ ch err, NewChallengeCall now rd d ttlSeconds = some (ch, err) →
      err = none ∧
      ∃ r full, rd = .filled r full ∧ DecodeString ch.SaltB64 = (r, none)) ∧
    (rd = .aborted →
      ∀ (L : Lib) (verifiedAt : Int) (quotes : Quote) (codec : Codec) (c : Conn),
        writes (handleHashcash L now rd verifiedAt quotes codec ttlSeconds c d).trace = [] ∧
        (handleHashcash L now rd verifiedAt quotes codec ttlSeconds c d).wire = [] ∧
        ∀ srv : Server, srv.ttlSeconds = ttlSeconds →
          (handleHashcash L now rd verifiedAt quotes codec ttlSeconds c d).trace
            <+: (handle srv c d).trace) := by
  refine ⟨?_, ?_, ?_⟩
  · intro h
    rw [h]
    rfl
  · intro ch err h
    cases rd with
    | aborted => cases h
    | filled r full =>
      simp only [NewChallengeCall, Option.some.injEq] at h
      have h1 : (NewChallenge now r d ttlSeconds).1 = ch := by rw [h]
      have h2 : (NewChallenge now r d ttlSeconds).2 = err := by rw [h]
      refine ⟨h2.symm.trans rfl, r, full, rfl, ?_⟩
      rw [← h1]
      simp only [NewChallenge, saltBuffer_full r full, DecodeString_EncodeToString]
  · intro h L verifiedAt quotes codec c
    rw [h]
    refine ⟨by simp [handleHashcash, writes], rfl, ?_⟩
    intro srv hsrv
    obtain ⟨tail, ht⟩ := handle_trace_begins srv c d
    rw [ht, hsrv]
    exact ⟨tail, rfl⟩

theorem NewChallenge_random_failure_witness :
    NewChallengeCall sampleNow .aborted 10 90 = none ∧
    writes (handleHashcash goLib sampleNow .aborted 1700000010 ⟨fun _ => lit "hello, world"⟩
      sampleCodec 90 (peerSending "\x7b\"nonce\":\"A\"\x7d\n") 10).trace = [] ∧
    (∃ r full, RandomRead.filled sampleRandom (by decide) = .filled r full ∧
      DecodeString (NewChallenge sampleNow sampleRandom 10 90).1.SaltB64 = (r, none)) :=
  ⟨(NewChallenge_random_failure sampleNow .aborted 10 90).1 rfl,
    ((NewChallenge_random_failure sampleNow .aborted 10 90).2.2 rfl goLib 1700000010
      ⟨fun _ => lit "hello, world"⟩ sampleCodec (peerSending "\x7b\"nonce\":\"A\"\x7d\n")).1,
    ((NewChallenge_random_failure sampleNow (.filled sampleRandom (by decide)) 10 90).2.1
      (NewChallenge sampleNow sampleRandom 10 90).1 (NewChallenge sampleNow sampleRandom 10 90).2
      rfl).2⟩

/-! ## Theorems: `powMessage` -/

theorem digitChar_byte (d : Nat) (hd : d < 10) :
    (Fin.ofNat (Nat.digitChar d).toNat : Byte) = ⟨48 + d, by omega⟩ := by
  have h : ∀ k : Fin 10, (Fin.ofNat (Nat.digitChar k.val).toNat : Byte).val = 48 + k.val := by
    decide
  exact Fin.ext (h ⟨d, hd⟩)

theorem formatBits_eq_toDigitsCore (fuel : Nat) :
    ∀ (n : Nat) (acc : Bytes) (cs : List Char), acc = cs.map (fun c => Fin.ofNat c.toNat) →
      formatBits fuel n acc = (Nat.toDigitsCore 10 fuel n cs).map fun c => Fin.ofNat c.toNat := by
  induction fuel with
  | zero =>
    intro n acc cs h
    simp [formatBits, Nat.toDigitsCore, h]
  | succ k ih =>
    intro n acc cs h
    have hd := digitChar_byte (n % 10) (Nat.mod_lt _ (by omega))
    by_cases hn : n < 10
    · have h0 : n / 10 = 0 := by omega
      simp only [formatBits, Nat.toDigitsCore, hn, h0, if_true, List.map_cons, hd, h]
    · have h0 : ¬ n / 10 = 0 := by omega
      simp only [formatBits, Nat.toDigitsCore, hn, h0, if_false]
      exact ih _ _ _ (by simp only [List.map_cons, hd, h])

/-- The model of `strconv.FormatInt(i, 10)` renders the decimal string of `i`. -/
theorem FormatInt_eq_decimalString (i : Int) : FormatInt i = decimalString i := by
  unfold FormatInt decimalString
  cases i with
  | ofNat m =>
    have h : ¬ (Int.ofNat m < 0) := by simp
    rw [if_neg h]
    simp only [Int.repr, Nat.repr, Nat.toDigits, List.asString, Int.natAbs_ofNat]
    exact formatBits_eq_toDigitsCore _ _ _ _ rfl
  | negSucc m =>
    have h : Int.negSucc m < 0 := Int.negSucc_lt_zero m
    rw [if_pos h]
    simp only [Int.repr, Nat.repr, Nat.toDigits, List.asString, Int.natAbs_negSucc]
    have hm : ("-" ++ (⟨Nat.toDigitsCore 10 (m.succ + 1) m.succ []⟩ : String)).data
        = '-' :: Nat.toDigitsCore 10 (m.succ + 1) m.succ [] := rfl
    rw [hm, List.map_cons]
    congr 1
    exact formatBits_eq_toDigitsCore _ _ _ _ rfl

/-- C15: for every salt, every integer `expires` (zero and negative values included) and every
nonce, `powMessage` is exactly the salt, a colon, the base-10 decimal string of `expires`, a
colon and the bytes of the nonce, with no byte added or dropped; for instance
`powMessage("salt", 123, "0abc")` is "salt:123:0abc". -/
theorem powMessage_spec (salt : Bytes) (expires : Int) (nonce : GoString) :
    powMessage salt expires nonce
      = salt ++ lit ":" ++ decimalString expires ++ lit ":" ++ nonce ∧
    (powMessage salt expires nonce).length
      = salt.length + 1 + (decimalString expires).length + 1 + nonce.length ∧
    powMessage (lit "salt") 123 (lit "0abc") = lit "salt:123:0abc" ∧
    powMessage (lit "salt") 0 (lit "0abc") = lit "salt:0:0abc" ∧
    powMessage (lit "salt") (-9223372036854775808) (lit "0abc")
      = lit "salt:-9223372036854775808:0abc" := by
  have hc : lit ":" = [58] := by decide
  refine ⟨?_, ?_, by decide, by decide, by decide⟩
  · simp [powMessage, FormatInt_eq_decimalString, hc]
  · simp [powMessage, FormatInt_eq_decimalString]
    omega

/-! ## Theorems: graceful shutdown -/

theorem flatMap_halfClose (active : List ConnRef) (htcp : ∀ c ∈ active, c.tcp = true) :
    active.flatMap (fun c =>
      if c.tcp then [RunEvent.SetDeadline c 200, RunEvent.CloseWrite c]
      else [RunEvent.SetDeadline c 200])
    = active.flatMap (fun c => [RunEvent.SetDeadline c 200, RunEvent.CloseWrite c]) := by
  induction active with
  | nil => rfl
  | cons c rest ih =>
    have hc := htcp c (List.mem_cons_self c rest)
    have hrest := ih fun x hx => htcp x (List.mem_cons_of_mem c hx)
    simp only [List.flatMap_cons, hc, if_true, hrest]

/-- C14: in the shutdown branch of `Run`, entered on cancellation, the steps are in this order on
every execution: the listener is closed first; then each registered connection (all of them
TCP connections, as the listener of `Run` accepts them) gets the 200 ms deadline and the
write-side half-close; then `Run` waits for the handlers, bounded by the grace period; the
connections still registered are force-closed only after a wait that ended with the grace
period and never after one that ended with all handlers finished; `Run` returns nil in both
cases. -/
theorem Run_shutdown_order (env : RunEnv) (hl : env.listen = none)
    (hs : env.selected = .ctxDone) (htcp : ∀ c ∈ env.active, c.tcp = true) :
    (Run env).2 = some none ∧
    (Run env).1 =
      [.Listen, .Log .Info "server started" none, .GoAcceptLoop,
        .Log .Info "shutdown: closing listener" none, .ListenerClose] ++
      env.active.flatMap (fun c => [.SetDeadline c 200, .CloseWrite c]) ++
      [.AwaitDrain] ++
      (if env.drained then [.Log .Info "shutdown: all connections drained" none]
       else .Log .Warn "shutdown: force-close remaining connections" none ::
         env.remaining.map .Close) ∧
    (∀ c ∈ env.active,
      RunEvent.SetDeadline c 200 ∈ (Run env).1 ∧ RunEvent.CloseWrite c ∈ (Run env).1) ∧
    (∀ c, RunEvent.Close c ∈ (Run env).1 → env.drained = false ∧ c ∈ env.remaining) ∧
    (env.drained = true → ∀ c, RunEvent.Close c ∉ (Run env).1) := by
  have ht : (Run env).1 =
      [.Listen, .Log .Info "server started" none, .GoAcceptLoop,
        .Log .Info "shutdown: closing listener" none, .ListenerClose] ++
      env.active.flatMap (fun c => [.SetDeadline c 200, .CloseWrite c]) ++
      [.AwaitDrain] ++
      (if env.drained then [.Log .Info "shutdown: all connections drained" none]
       else .Log .Warn "shutdown: force-close remaining connections" none ::
         env.remaining.map .Close) := by
    simp only [Run, hl, hs, shutdown, flatMap_halfClose env.active htcp]
    simp
  have hclose : ∀ c, RunEvent.Close c ∈ (Run env).1 →
      env.drained = false ∧ c ∈ env.remaining := by
    intro c hc
    rw [ht] at hc
    cases hdr : env.drained with
    | true => simp [hdr, List.mem_flatMap] at hc
    | false => simpa [hdr, List.mem_flatMap] using hc
  refine ⟨by simp [Run, hl, hs], ht, ?_, hclose, ?_⟩
  · intro c hc
    rw [ht]
    constructor
    · simp only [List.mem_append, List.mem_flatMap]
      exact Or.inl (Or.inl (Or.inr ⟨c, hc, by simp⟩))
    · simp only [List.mem_append, List.mem_flatMap]
      exact Or.inl (Or.inl (Or.inr ⟨c, hc, by simp⟩))
  · intro hdr c hc
    have h := (hclose c hc).1
    rw [hdr] at h
    cases h

theorem Run_shutdown_order_witness :
    cancelledRun.listen = none ∧ cancelledRun.selected = .ctxDone ∧
    (∀ c ∈ cancelledRun.active, c.tcp = true) ∧
    (Run cancelledRun).2 = some none ∧
    (Run cancelledRun).1 =
      [.Listen, .Log .Info "server started" none, .GoAcceptLoop,
        .Log .Info "shutdown: closing listener" none, .ListenerClose,
        .SetDeadline ⟨1, true⟩ 200, .CloseWrite ⟨1, true⟩,
        .SetDeadline ⟨2, true⟩ 200, .CloseWrite ⟨2, true⟩,
        .AwaitDrain,
        .Log .Warn "shutdown: force-close remaining connections" none, .Close ⟨2, true⟩] :=
  ⟨rfl, rfl, by decide,
    (Run_shutdown_order cancelledRun rfl rfl (by decide)).1,
    (Run_shutdown_order cancelledRun rfl rfl (by decide)).2.1⟩

/-! ## Theorems: the range of `leadingZeroBits` and of the difficulty -/

theorem LeadingZeros8_range (x : Byte) : 0 ≤ LeadingZeros8 x ∧ LeadingZeros8 x ≤ 8 := by
  revert x
  set_option maxRecDepth 100000 in decide

theorem leadingZeroBitsLoop_bounds (b : Bytes) (total : Int) :
    total ≤ leadingZeroBitsLoop total b ∧
    leadingZeroBitsLoop total b ≤ total + 8 * (b.length : Int) := by
  induction b generalizing total with
  | nil => simp [leadingZeroBitsLoop]
  | cons x rest ih =>
    by_cases hx : x = 0
    · have h := ih (total + 8)
      simp only [leadingZeroBitsLoop, hx, if_true, List.length_cons]
      push_cast
      omega
    · have h := LeadingZeros8_range x
      simp only [leadingZeroBitsLoop, hx, if_false, List.length_cons]
      push_cast
      omega

theorem leadingZeroBits_bounds (b : Bytes) :
    0 ≤ leadingZeroBits b ∧ leadingZeroBits b ≤ 8 * (b.length : Int) := by
  have h := leadingZeroBitsLoop_bounds b 0
  simpa [leadingZeroBits] using h

/-- C16: `leadingZeroBits b` lies between 0 and `8 * len(b)`; hence, for a supported, unexpired
challenge whose salt decodes, `Verify` accepts every nonce when `Difficulty ≤ 0` and rejects
every nonce with "pow invalid" when `Difficulty > 256`, the bit length of the digest. The
configuration parser hands on whatever integer it parses, such values included. -/
theorem difficulty_out_of_range (L : Lib) (now : Int) (ch : Challenge) (salt : Bytes)
    (hs : ch.Algo = lit "sha256-leading-zero-bits" ∧ ch.Version = 1) (hn : now ≤ ch.Expires)
    (hd : DecodeString ch.SaltB64 = (salt, none)) :
    (∀ b : Bytes, 0 ≤ leadingZeroBits b ∧ leadingZeroBits b ≤ 8 * (b.length : Int)) ∧
    (ch.Difficulty ≤ 0 → ∀ n, Verify L now ch ⟨n⟩ = none) ∧
    (ch.Difficulty > 256 → ∀ n, Verify L now ch ⟨n⟩ = some (.errorsNew "pow invalid")) ∧
    (∀ (s : GoString) (n fallback : Int), Atoi s = (n, none) → Config.atoi s fallback = n) ∧
    Config.parsePoWDifficulty (envWithDifficulty "300") = 300 ∧
    Config.parsePoWDifficulty (envWithDifficulty "-1") = -1 := by
  refine ⟨leadingZeroBits_bounds, ?_, ?_, ?_, by decide, by decide⟩
  · intro hle n
    have hb := leadingZeroBits_bounds
      (L.Sum256 (powMessage salt ch.Expires (L.ToLower n)))
    rw [Verify_decoded L now ch ⟨n⟩ hs hn salt hd]
    dsimp only
    rw [if_neg (by omega)]
  · intro hgt n
    have hb := leadingZeroBits_bounds
      (L.Sum256 (powMessage salt ch.Expires (L.ToLower n)))
    rw [L.Sum256_length] at hb
    rw [Verify_decoded L now ch ⟨n⟩ hs hn salt hd]
    dsimp only
    rw [if_pos (by omega)]
  · intro s n fallback h
    simp [Config.atoi, h]

theorem difficulty_out_of_range_witness :
    (sampleChallenge.Algo = lit "sha256-leading-zero-bits" ∧ sampleChallenge.Version = 1) ∧
    (1699999990 : Int) ≤ sampleChallenge.Expires ∧
    DecodeString sampleChallenge.SaltB64 = (lit "salt", none) ∧
    (∀ n, Verify goLib 1699999990 { sampleChallenge with Difficulty := 0 } ⟨n⟩ = none) ∧
    (∀ n, Verify goLib 1699999990 { sampleChallenge with Difficulty := 257 } ⟨n⟩
      = some (.errorsNew "pow invalid")) :=
  ⟨by decide, by decide, by decide,
    (difficulty_out_of_range goLib 1699999990 { sampleChallenge with Difficulty := 0 }
      (lit "salt") (by decide) (by decide) (by decide)).2.1 (by decide),
    (difficulty_out_of_range goLib 1699999990 { sampleChallenge with Difficulty := 257 }
      (lit "salt") (by decide) (by decide) (by decide)).2.2.1 (by decide)⟩

/-! ## Theorems: the client's solver -/

theorem client_leadingZeroBitsLoop_eq (b : Bytes) (n : Int) :
    Client.leadingZeroBitsLoop n b = leadingZeroBitsLoop n b := by
  induction b generalizing n with
  | nil => rfl
  | cons x rest ih =>
    by_cases hx : x = 0
    · simp [Client.leadingZeroBitsLoop, leadingZeroBitsLoop, hx, ih]
    · simp [Client.leadingZeroBitsLoop, leadingZeroBitsLoop, hx]

theorem client_leadingZeroBits_eq (b : Bytes) :
    Client.leadingZeroBits b = leadingZeroBits b := by
  simp [Client.leadingZeroBits, leadingZeroBits, client_leadingZeroBitsLoop_eq]

theorem client_search_found (L : Lib) (clock : Int → Int) (ch : Challenge) (salt : Bytes)
    (nonce : GoString) (fuel : Nat) :
    ∀ i : Int, Client.search L clock ch salt (FormatInt ch.Expires) fuel i = .found nonce →
      (∃ j : Int, nonce = Sprintf_x j) ∧
      leadingZeroBits (L.Sum256 (powMessage salt ch.Expires (L.ToLower nonce)))
        ≥ ch.Difficulty := by
  induction fuel with
  | zero =>
    intro i h
    simp [Client.search] at h
  | succ k ih =>
    intro i h
    unfold Client.search at h
    simp only [] at h
    split at h
    · rename_i hge
      cases h
      refine ⟨⟨i, rfl⟩, ?_⟩
      rw [client_leadingZeroBits_eq] at hge
      exact hge
    · split at h
      · cases h
      · exact ih _ h

/-- C17: the client's solver agrees with the server's verifier. The client's `leadingZeroBits`
equals the service's on every byte sequence; the payload the client hashes for candidate `i` is
`powMessage(salt, expires, lower(hex(i)))`; hence, for a challenge with the supported algorithm
and version, a nonce on which the client's search stops (which requires the salt to decode) is
accepted by `Verify` at every time `now ≤ Expires`. -/
theorem client_agrees_with_Verify (L : Lib) (clock : Int → Int) (ch : Challenge) (fuel : Nat)
    (nonce : GoString)
    (hs : ch.Algo = lit "sha256-leading-zero-bits" ∧ ch.Version = 1)
    (hfound : Client.solve L clock ch fuel = .found nonce) :
    (∀ b : Bytes, Client.leadingZeroBits b = leadingZeroBits b) ∧
    (∀ (salt : Bytes) (expires i : Int),
      Client.payload salt (FormatInt expires) (L.ToLower (Sprintf_x i))
        = powMessage salt expires (L.ToLower (Sprintf_x i))) ∧
    (∃ salt, DecodeString ch.SaltB64 = (salt, none)) ∧
    (∃ i : Int, nonce = Sprintf_x i) ∧
    ∀ now : Int, now ≤ ch.Expires → Verify L now ch ⟨nonce⟩ = none := by
  refine ⟨client_leadingZeroBits_eq, fun salt expires i => rfl, ?_⟩
  unfold Client.solve at hfound
  rcases hdec : DecodeString ch.SaltB64 with ⟨salt, _ | err⟩
  · rw [hdec] at hfound
    simp only [] at hfound
    obtain ⟨hj, hge⟩ := client_search_found L clock ch salt nonce fuel 0 hfound
    refine ⟨⟨salt, rfl⟩, hj, ?_⟩
    intro now hnow
    rw [Verify_decoded L now ch ⟨nonce⟩ hs hnow salt hdec]
    dsimp only
    rw [if_neg (by omega)]
  · rw [hdec] at hfound
    simp at hfound

theorem client_agrees_with_Verify_witness :
    (issuedChallenge.Algo = lit "sha256-leading-zero-bits" ∧ issuedChallenge.Version = 1) ∧
    Client.solve goLib (fun _ => 1700000001) issuedChallenge 100 = .found (lit "a") ∧
    ∀ now : Int, now ≤ issuedChallenge.Expires →
      Verify goLib now issuedChallenge ⟨lit "a"⟩ = none :=
  ⟨by decide, by set_option maxRecDepth 1000000 in decide,
    (client_agrees_with_Verify goLib (fun _ => 1700000001) issuedChallenge 100 (lit "a")
      (by decide) (by set_option maxRecDepth 1000000 in decide)).2.2.2.2⟩

end WordOfWisdom
